import Mathlib

/-!
Verification of `paasta_tools/envoy_tools.py`: a shallow embedding of the
Envoy backend discovery and correlation code, together with theorems that
settle the specification's claims against it.

Modelling conventions:
  - The JSON snapshot returned by the Envoy admin endpoint is modelled by
    `ClusterSnapshot`: an ordered list of cluster statuses, each carrying a
    name and an optional ordered list of host statuses (`none` models a
    cluster record with no `host_statuses` key).
  - Python string operations are embedded as functions over the character
    sequence of the string (this matches Python semantics of `startswith`,
    `endswith`, slicing, and `split(".")[0]`, and keeps everything
    kernel-computable).
  - DNS lookups (`socket.gethostbyaddr`, `socket.gethostbyname`) are
    modelled as an ambient function `String → Option String`; a `none`
    result models the raised resolution error, which the Python code does
    not catch, so the embedded functions return `Option` results and
    propagate `none`.
  - Python `set` / `frozenset` becomes `Finset`, lists become `List`,
    `collections.defaultdict` keyed insertion order becomes an ordered
    association list (`Groups`) with Python 3.7+ dict ordering semantics.
-/

/-- Embedding of Python `s.startswith(p)`: prefix test on the character
sequence. -/
def strStartsWith (s p : String) : Bool := p.data.isPrefixOf s.data

/-- Embedding of Python `s.endswith(p)`: suffix test on the character
sequence. -/
def strEndsWith (s p : String) : Bool := p.data.isSuffixOf s.data

/-- Embedding of Python `s[: -n]` (for `0 < n ≤ len(s)`): drop the last `n`
characters. -/
def strDropRight (s : String) (n : Nat) : String :=
  String.mk (s.data.take (s.data.length - n))

/-- Embedding of Python `s.split(".")[0]`: the characters before the first
dot (the whole string when it has no dot). -/
def firstLabel (s : String) : String :=
  String.mk (s.data.takeWhile (fun c => !(c = '.')))

/-- One entry of a cluster's `host_statuses` array, with the fields the code
reads: `address.socket_address.address`, `address.socket_address.port_value`,
`health_status.eds_health_status` and `weight`. -/
structure HostStatus where
  address : String
  port_value : Int
  eds_health_status : String
  weight : Int
deriving DecidableEq, Repr

/-- One entry of the snapshot's `cluster_statuses` array: a `name` and the
optional `host_statuses` array (`none` when the key is absent). -/
structure ClusterStatus where
  name : String
  host_statuses : Option (List HostStatus)
deriving DecidableEq, Repr

/-- The parsed `/clusters?format=json` response body. -/
abbrev ClusterSnapshot := List ClusterStatus

/-- The `EnvoyBackend` typed dict as populated by `get_multiple_backends`
(the `has_associated_task` key is never set in this module). -/
structure EnvoyBackend where
  address : String
  port_value : Int
  hostname : String
  eds_health_status : String
  weight : Int
deriving DecidableEq, Repr

/-- The part of a `MarathonTask` that `match_backends_and_tasks` reads: a
resolvable host name and the list of ports. -/
structure MarathonTask where
  host : String
  ports : List Int
deriving DecidableEq, Repr

/-- The host statuses the code iterates over for a cluster: the
`host_statuses` array when present, nothing otherwise. -/
def cluster_hosts (c : ClusterStatus) : List HostStatus := c.host_statuses.getD []

/-- Inner loop of `get_casper_endpoints`: add every host status's
`(address, port_value)` pair to the accumulated set. -/
def add_host_endpoints (acc : Finset (String × Int)) : List HostStatus → Finset (String × Int)
  | [] => acc
  | h :: rest => add_host_endpoints (insert (h.address, h.port_value) acc) rest

/-- The filter `get_casper_endpoints` applies to a cluster name:
`name.startswith("spectre.") and name.endswith(".egress_cluster")`. -/
def casper_cluster (c : ClusterStatus) : Bool :=
  strStartsWith c.name "spectre." && strEndsWith c.name ".egress_cluster"

/-- Outer loop of `get_casper_endpoints` over `cluster_statuses`. -/
def casper_endpoints_loop (acc : Finset (String × Int)) : ClusterSnapshot → Finset (String × Int)
  | [] => acc
  | c :: rest =>
    match c.host_statuses with
    | none => casper_endpoints_loop acc rest
    | some hss =>
      if casper_cluster c then
        casper_endpoints_loop (add_host_endpoints acc hss) rest
      else
        casper_endpoints_loop acc rest

/-- Embedding of `get_casper_endpoints`: the set of `(address, port)` pairs
of all host statuses of clusters named `spectre.*` / `*.egress_cluster`. -/
def get_casper_endpoints (clusters_info : ClusterSnapshot) : Finset (String × Int) :=
  casper_endpoints_loop ∅ clusters_info

lemma mem_add_host_endpoints (x : String × Int) :
    ∀ (hss : List HostStatus) (acc : Finset (String × Int)),
      x ∈ add_host_endpoints acc hss ↔
        x ∈ acc ∨ ∃ h ∈ hss, x = (h.address, h.port_value) := by
  intro hss
  induction hss with
  | nil => intro acc; simp [add_host_endpoints]
  | cons h rest ih =>
    intro acc
    simp only [add_host_endpoints, ih, Finset.mem_insert]
    constructor
    · rintro (⟨h1 | h1⟩ | ⟨h2, hmem, h3⟩)
      · exact Or.inr ⟨h, by simp, h1⟩
      · exact Or.inl h1
      · exact Or.inr ⟨h2, by simp [hmem], h3⟩
    · rintro (h1 | ⟨h2, hmem, h3⟩)
      · exact Or.inl (Or.inr h1)
      · rcases List.mem_cons.mp hmem with heq | htail
        · exact Or.inl (Or.inl (heq ▸ h3))
        · exact Or.inr ⟨h2, htail, h3⟩

lemma casper_endpoints_loop_cons (acc : Finset (String × Int)) (c : ClusterStatus)
    (rest : ClusterSnapshot) :
    casper_endpoints_loop acc (c :: rest) =
      casper_endpoints_loop
        (if casper_cluster c then add_host_endpoints acc (cluster_hosts c) else acc) rest := by
  rcases hc : c.host_statuses with _ | hss <;> cases hcc : casper_cluster c <;>
    simp [casper_endpoints_loop, hc, hcc, cluster_hosts, add_host_endpoints]

lemma mem_casper_endpoints_loop (x : String × Int) :
    ∀ (s : ClusterSnapshot) (acc : Finset (String × Int)),
      x ∈ casper_endpoints_loop acc s ↔
        x ∈ acc ∨ ∃ c ∈ s, casper_cluster c = true ∧
          ∃ h ∈ cluster_hosts c, x = (h.address, h.port_value) := by
  intro s
  induction s with
  | nil => intro acc; simp [casper_endpoints_loop]
  | cons c rest ih =>
    intro acc
    rw [casper_endpoints_loop_cons, ih]
    cases hcc : casper_cluster c with
    | true =>
      simp only [if_true, mem_add_host_endpoints, List.exists_mem_cons_iff, hcc,
        true_and]
      rw [or_assoc]
    | false =>
      simp only [Bool.false_eq_true, if_false, List.exists_mem_cons_iff, hcc,
        false_and, false_or]

lemma mem_get_casper_endpoints (x : String × Int) (s : ClusterSnapshot) :
    x ∈ get_casper_endpoints s ↔
      ∃ c ∈ s, casper_cluster c = true ∧
        ∃ h ∈ cluster_hosts c, x = (h.address, h.port_value) := by
  simp [get_casper_endpoints, mem_casper_endpoints_loop]

/-- Permutation of the optional host-status lists of two cluster records. -/
def hosts_perm : Option (List HostStatus) → Option (List HostStatus) → Prop
  | none, none => True
  | some l, some l2 => List.Perm l l2
  | _, _ => False

/-- Two cluster records are equivalent when they share a name and their
host-status lists are permutations of each other. -/
def ClusterPerm (c c' : ClusterStatus) : Prop :=
  c.name = c'.name ∧ hosts_perm c.host_statuses c'.host_statuses

/-- One snapshot is a rearrangement of another when, after permuting each
cluster's host-status list, the cluster lists are permutations. -/
def SnapshotPerm (s s' : ClusterSnapshot) : Prop :=
  ∃ t, List.Forall₂ ClusterPerm s t ∧ List.Perm t s'

lemma hosts_perm_getD {o o' : Option (List HostStatus)} (h : hosts_perm o o') :
    List.Perm (o.getD []) (o'.getD []) := by
  cases o with
  | none => cases o' with
    | none => simp
    | some l => exact absurd h (by simp [hosts_perm])
  | some l => cases o' with
    | none => exact absurd h (by simp [hosts_perm])
    | some l2 => simpa [hosts_perm] using h

def CasperMem (x : String × Int) (s : ClusterSnapshot) : Prop :=
  ∃ c ∈ s, casper_cluster c = true ∧ ∃ h ∈ cluster_hosts c, x = (h.address, h.port_value)

lemma casperMem_of_clusterPerm {c c' : ClusterStatus} (h : ClusterPerm c c') :
    (casper_cluster c = true ∧ ∃ hh ∈ cluster_hosts c, (x : String × Int) = (hh.address, hh.port_value)) ↔
    (casper_cluster c' = true ∧ ∃ hh ∈ cluster_hosts c', x = (hh.address, hh.port_value)) := by
  obtain ⟨hname, hperm⟩ := h
  have hcc : casper_cluster c = casper_cluster c' := by
    simp [casper_cluster, hname]
  have hhp := hosts_perm_getD hperm
  constructor
  · rintro ⟨h1, hh, hmem, heq⟩
    exact ⟨hcc ▸ h1, hh, hhp.mem_iff.mp hmem, heq⟩
  · rintro ⟨h1, hh, hmem, heq⟩
    exact ⟨hcc ▸ h1, hh, hhp.mem_iff.mpr hmem, heq⟩

lemma casperMem_of_forall₂ {s t : ClusterSnapshot} (hf : List.Forall₂ ClusterPerm s t)
    (x : String × Int) : CasperMem x s ↔ CasperMem x t := by
  induction hf with
  | nil => simp [CasperMem]
  | @cons c c' s2 t2 hcp _ ih =>
    constructor
    · rintro ⟨c0, hmem, hrest⟩
      rcases List.mem_cons.mp hmem with heq | htail
      · subst heq
        exact ⟨c', by simp, ((casperMem_of_clusterPerm hcp).mp hrest)⟩
      · obtain ⟨c1, hmem1, h1⟩ := ih.mp ⟨c0, htail, hrest⟩
        exact ⟨c1, by simp [hmem1], h1⟩
    · rintro ⟨c0, hmem, hrest⟩
      rcases List.mem_cons.mp hmem with heq | htail
      · subst heq
        exact ⟨c, by simp, ((casperMem_of_clusterPerm hcp).mpr hrest)⟩
      · obtain ⟨c1, hmem1, h1⟩ := ih.mpr ⟨c0, htail, hrest⟩
        exact ⟨c1, by simp [hmem1], h1⟩

/-- C6: `get_casper_endpoints` returns exactly the deduplicated set of
`(address, port)` pairs of host statuses of clusters whose name matches
`spectre.<anything>.egress_cluster` (formalised, as in the code, as having
prefix `spectre.` and suffix `.egress_cluster`); a pair is in the result iff
some such cluster lists a host status with that address and port, and
non-matching clusters contribute nothing. -/
theorem get_casper_endpoints_characterisation (s : ClusterSnapshot) (x : String × Int) :
    x ∈ get_casper_endpoints s ↔
      ∃ c ∈ s, (strStartsWith c.name "spectre." = true ∧
                strEndsWith c.name ".egress_cluster" = true) ∧
        ∃ h ∈ cluster_hosts c, x = (h.address, h.port_value) := by
  rw [mem_get_casper_endpoints]
  constructor
  · rintro ⟨c, hmem, hcc, hrest⟩
    exact ⟨c, hmem, by simpa [casper_cluster, Bool.and_eq_true] using hcc, hrest⟩
  · rintro ⟨c, hmem, hcc, hrest⟩
    exact ⟨c, hmem, by simp [casper_cluster, Bool.and_eq_true, hcc.1, hcc.2], hrest⟩

/-- C5: `get_casper_endpoints` is deterministic (same snapshot twice gives
the same set) and order-independent: permuting the snapshot's cluster list
and each cluster's host-status list yields an equal set. -/
theorem get_casper_endpoints_order_independent (s s' : ClusterSnapshot)
    (h : SnapshotPerm s s') :
    get_casper_endpoints s = get_casper_endpoints s ∧
    get_casper_endpoints s = get_casper_endpoints s' := by
  refine ⟨rfl, ?_⟩
  obtain ⟨t, hf, hp⟩ := h
  apply Finset.ext
  intro x
  rw [mem_get_casper_endpoints, mem_get_casper_endpoints]
  have h1 : CasperMem x s ↔ CasperMem x t := casperMem_of_forall₂ hf x
  have h2 : CasperMem x t ↔ CasperMem x s' := by
    unfold CasperMem
    constructor
    · rintro ⟨c, hmem, hrest⟩; exact ⟨c, hp.mem_iff.mp hmem, hrest⟩
    · rintro ⟨c, hmem, hrest⟩; exact ⟨c, hp.mem_iff.mpr hmem, hrest⟩
  exact (h1.trans h2 : _)

def wHost1 : HostStatus :=
  { address := "10.0.0.9", port_value := 9000, eds_health_status := "HEALTHY", weight := 1 }

def wHost2 : HostStatus :=
  { address := "10.0.0.1", port_value := 8080, eds_health_status := "HEALTHY", weight := 1 }

def wCasperCluster : ClusterStatus :=
  { name := "spectre.foo.egress_cluster", host_statuses := some [wHost1, wHost2] }

def wWebCluster : ClusterStatus :=
  { name := "web.egress_cluster", host_statuses := some [wHost2] }

def wCasperClusterSwapped : ClusterStatus :=
  { name := "spectre.foo.egress_cluster", host_statuses := some [wHost2, wHost1] }

/-- Witness for C5: a concrete snapshot together with a snapshot obtained
by swapping its two clusters and the hosts inside the casper cluster still
produces the same endpoint set. -/
theorem get_casper_endpoints_order_independent_witness :
    get_casper_endpoints [wCasperCluster, wWebCluster] =
      get_casper_endpoints [wCasperCluster, wWebCluster] ∧
    get_casper_endpoints [wCasperCluster, wWebCluster] =
      get_casper_endpoints [wWebCluster, wCasperClusterSwapped] :=
  get_casper_endpoints_order_independent
    [wCasperCluster, wWebCluster] [wWebCluster, wCasperClusterSwapped]
    ⟨[wCasperClusterSwapped, wWebCluster],
      List.Forall₂.cons ⟨rfl, (by decide : List.Perm [wHost1, wHost2] [wHost2, wHost1])⟩
        (List.Forall₂.cons ⟨rfl, (by decide : List.Perm [wHost2] [wHost2])⟩ List.Forall₂.nil),
      by decide⟩

/-- The condition under which `get_multiple_backends` skips a host status
(`continue`): the service is not itself a `spectre.` service and the host's
`(address, port_value)` is one of the casper endpoints. -/
def skipHost (casper_endpoints : Finset (String × Int)) (service_name : String)
    (h : HostStatus) : Bool :=
  !strStartsWith service_name "spectre." &&
    decide ((h.address, h.port_value) ∈ casper_endpoints)

/-- Building one `EnvoyBackend` record from a host status: the reverse DNS
lookup of the address (`socket.gethostbyaddr`) may fail, in which case the
whole call fails (`none`); on success the hostname is the first label of the
resolved name (`split(".")[0]`). -/
def mkBackend (dns_rev : String → Option String) (h : HostStatus) : Option EnvoyBackend :=
  match dns_rev h.address with
  | none => none
  | some full => some
      { address := h.address
        port_value := h.port_value
        hostname := firstLabel full
        eds_health_status := h.eds_health_status
        weight := h.weight }

/-- The inner host-status loop of `get_multiple_backends` for one cluster,
carrying the `casper_endpoint_found` flag: a skipped host sets the flag and
emits nothing; otherwise a backend is emitted paired with the flag's current
value. -/
def cluster_backends_loop (dns_rev : String → Option String)
    (casper_endpoints : Finset (String × Int)) (service_name : String) :
    List HostStatus → Bool → Option (List (EnvoyBackend × Bool))
  | [], _ => some []
  | h :: rest, casper_endpoint_found =>
    if skipHost casper_endpoints service_name h then
      cluster_backends_loop dns_rev casper_endpoints service_name rest true
    else
      match mkBackend dns_rev h with
      | none => none
      | some b =>
        match cluster_backends_loop dns_rev casper_endpoints service_name rest
            casper_endpoint_found with
        | none => none
        | some bs => some ((b, casper_endpoint_found) :: bs)

/-- `service_name = cluster_status["name"][: -len(".egress_cluster")]`. -/
def service_of (c : ClusterStatus) : String :=
  strDropRight c.name ".egress_cluster".length

/-- `services is None or service_name in services`. -/
def passesFilter (services : Option (List String)) (service_name : String) : Bool :=
  match services with
  | none => true
  | some l => decide (service_name ∈ l)

/-- A cluster contributes backends iff its name ends with `.egress_cluster`
and its derived service name passes the service filter. -/
def cluster_passes (services : Option (List String)) (c : ClusterStatus) : Bool :=
  strEndsWith c.name ".egress_cluster" && passesFilter services (service_of c)

/-- The outer cluster loop of `get_multiple_backends`, with the casper
endpoint set as an explicit parameter. -/
def multiple_backends_loop (dns_rev : String → Option String)
    (casper_endpoints : Finset (String × Int)) (services : Option (List String)) :
    ClusterSnapshot → Option (List (EnvoyBackend × Bool))
  | [] => some []
  | c :: rest =>
    match c.host_statuses with
    | none => multiple_backends_loop dns_rev casper_endpoints services rest
    | some hss =>
      if strEndsWith c.name ".egress_cluster" then
        if passesFilter services (service_of c) then
          match cluster_backends_loop dns_rev casper_endpoints (service_of c) hss false,
                multiple_backends_loop dns_rev casper_endpoints services rest with
          | some bs, some tail => some (bs ++ tail)
          | _, _ => none
        else multiple_backends_loop dns_rev casper_endpoints services rest
      else multiple_backends_loop dns_rev casper_endpoints services rest

/-- Embedding of `get_multiple_backends` on an already-fetched snapshot: the
casper endpoints are computed from the same snapshot, then the cluster loop
emits `(EnvoyBackend, casper_endpoint_found)` tuples. -/
def get_multiple_backends (dns_rev : String → Option String)
    (services : Option (List String)) (clusters_info : ClusterSnapshot) :
    Option (List (EnvoyBackend × Bool)) :=
  multiple_backends_loop dns_rev (get_casper_endpoints clusters_info) services clusters_info

/-- Embedding of `get_backends`: a truthy `service` (a non-empty string)
becomes the one-element filter `[service]`; a falsy one (`None` or `""`)
becomes `None`. -/
def get_backends (dns_rev : String → Option String) (service : Option String)
    (clusters_info : ClusterSnapshot) : Option (List (EnvoyBackend × Bool)) :=
  match service with
  | some s =>
    if s = "" then get_multiple_backends dns_rev none clusters_info
    else get_multiple_backends dns_rev (some [s]) clusters_info
  | none => get_multiple_backends dns_rev none clusters_info

lemma mkBackend_eq_none_iff (dns_rev : String → Option String) (h : HostStatus) :
    mkBackend dns_rev h = none ↔ dns_rev h.address = none := by
  cases hd : dns_rev h.address <;> simp [mkBackend, hd]

lemma mkBackend_some (dns_rev : String → Option String) (h : HostStatus)
    (b : EnvoyBackend) (hb : mkBackend dns_rev h = some b) :
    b.address = h.address ∧ b.port_value = h.port_value ∧
      ∃ full, dns_rev h.address = some full ∧ b.hostname = firstLabel full := by
  cases hd : dns_rev h.address with
  | none => simp [mkBackend, hd] at hb
  | some full =>
    simp only [mkBackend, hd] at hb
    cases hb
    exact ⟨rfl, rfl, full, rfl, rfl⟩

lemma cluster_backends_loop_length (dns_rev : String → Option String)
    (casper : Finset (String × Int)) (sname : String) :
    ∀ (hss : List HostStatus) (found : Bool) (bs : List (EnvoyBackend × Bool)),
      cluster_backends_loop dns_rev casper sname hss found = some bs →
      bs.length + (hss.filter (skipHost casper sname)).length = hss.length := by
  intro hss
  induction hss with
  | nil =>
    intro found bs hb
    simp only [cluster_backends_loop, Option.some.injEq] at hb
    subst hb
    simp
  | cons h rest ih =>
    intro found bs hb
    simp only [cluster_backends_loop] at hb
    cases hs : skipHost casper sname h with
    | true =>
      rw [if_pos hs] at hb
      have := ih true bs hb
      simp only [List.filter_cons, hs, if_pos, List.length_cons]
      omega
    | false =>
      rw [if_neg (by simp [hs])] at hb
      cases hmk : mkBackend dns_rev h with
      | none => rw [hmk] at hb; exact absurd hb (by simp)
      | some b =>
        rw [hmk] at hb
        cases hrec : cluster_backends_loop dns_rev casper sname rest found with
        | none => rw [hrec] at hb; exact absurd hb (by simp)
        | some bs2 =>
          rw [hrec] at hb
          simp only [Option.some.injEq] at hb
          subst hb
          have := ih found bs2 hrec
          simp only [List.filter_cons, hs, List.length_cons, Bool.false_eq_true, if_false]
          omega

/-- The per-cluster casper flags the code actually produces: a skipped host
status flips the running flag to `true` for all later emissions; an emitted
host status records the flag's current value. -/
def cluster_flags (casper : Finset (String × Int)) (sname : String) :
    List HostStatus → Bool → List Bool
  | [], _ => []
  | h :: rest, found =>
    if skipHost casper sname h then cluster_flags casper sname rest true
    else found :: cluster_flags casper sname rest found

lemma cluster_backends_loop_flags (dns_rev : String → Option String)
    (casper : Finset (String × Int)) (sname : String) :
    ∀ (hss : List HostStatus) (found : Bool) (bs : List (EnvoyBackend × Bool)),
      cluster_backends_loop dns_rev casper sname hss found = some bs →
      bs.map (fun x => x.2) = cluster_flags casper sname hss found := by
  intro hss
  induction hss with
  | nil =>
    intro found bs hb
    simp only [cluster_backends_loop, Option.some.injEq] at hb
    subst hb
    simp [cluster_flags]
  | cons h rest ih =>
    intro found bs hb
    simp only [cluster_backends_loop] at hb
    cases hs : skipHost casper sname h with
    | true =>
      rw [if_pos hs] at hb
      simp only [cluster_flags, hs, if_pos]
      exact ih true bs hb
    | false =>
      rw [if_neg (by simp [hs])] at hb
      cases hmk : mkBackend dns_rev h with
      | none => rw [hmk] at hb; exact absurd hb (by simp)
      | some b =>
        rw [hmk] at hb
        cases hrec : cluster_backends_loop dns_rev casper sname rest found with
        | none => rw [hrec] at hb; exact absurd hb (by simp)
        | some bs2 =>
          rw [hrec] at hb
          simp only [Option.some.injEq] at hb
          subst hb
          simp only [cluster_flags, hs, Bool.false_eq_true, if_false, List.map_cons]
          exact congrArg (found :: ·) (ih found bs2 hrec)

lemma cluster_backends_loop_eq_none (dns_rev : String → Option String)
    (casper : Finset (String × Int)) (sname : String) :
    ∀ (hss : List HostStatus) (found : Bool),
      (cluster_backends_loop dns_rev casper sname hss found = none ↔
        ∃ h ∈ hss, skipHost casper sname h = false ∧ dns_rev h.address = none) := by
  intro hss
  induction hss with
  | nil => intro found; simp [cluster_backends_loop]
  | cons h rest ih =>
    intro found
    simp only [cluster_backends_loop]
    cases hs : skipHost casper sname h with
    | true =>
      simp [ih true, List.exists_mem_cons_iff, hs]
    | false =>
      cases hmk : mkBackend dns_rev h with
      | none =>
        have hd : dns_rev h.address = none := (mkBackend_eq_none_iff dns_rev h).mp hmk
        simp [hmk, List.exists_mem_cons_iff, hd, hs]
      | some b =>
        have hd : dns_rev h.address ≠ none := by
          intro hcon
          rw [(mkBackend_eq_none_iff dns_rev h).mpr hcon] at hmk
          exact absurd hmk (by simp)
        cases hrec : cluster_backends_loop dns_rev casper sname rest found with
        | none =>
          have hrest := (ih found).mp hrec
          simp [hmk, hrec, List.exists_mem_cons_iff, hrest, hs]
        | some bs2 =>
          have hrest : ¬ ∃ h2 ∈ rest, skipHost casper sname h2 = false ∧ dns_rev h2.address = none := by
            intro hcon
            rw [(ih found).mpr hcon] at hrec
            exact absurd hrec (by simp)
          simp [hmk, hrec, List.exists_mem_cons_iff, hd, hrest, hs]

lemma cluster_backends_loop_spectre (dns_rev : String → Option String)
    (casper : Finset (String × Int)) (sname : String)
    (hsp : strStartsWith sname "spectre." = true) :
    ∀ (hss : List HostStatus) (found : Bool) (bs : List (EnvoyBackend × Bool)),
      cluster_backends_loop dns_rev casper sname hss found = some bs →
      bs.map (fun x => (x.1.address, x.1.port_value)) =
        hss.map (fun h => (h.address, h.port_value)) := by
  intro hss
  induction hss with
  | nil =>
    intro found bs hb
    simp only [cluster_backends_loop, Option.some.injEq] at hb
    subst hb
    simp
  | cons h rest ih =>
    intro found bs hb
    have hs : skipHost casper sname h = false := by
      simp [skipHost, hsp]
    simp only [cluster_backends_loop] at hb
    rw [if_neg (by simp [hs])] at hb
    cases hmk : mkBackend dns_rev h with
    | none => rw [hmk] at hb; exact absurd hb (by simp)
    | some b =>
      rw [hmk] at hb
      cases hrec : cluster_backends_loop dns_rev casper sname rest found with
      | none => rw [hrec] at hb; exact absurd hb (by simp)
      | some bs2 =>
        rw [hrec] at hb
        simp only [Option.some.injEq] at hb
        subst hb
        obtain ⟨ha, hp, _⟩ := mkBackend_some dns_rev h b hmk
        simp only [List.map_cons, ha, hp]
        exact congrArg _ (ih found bs2 hrec)

lemma cluster_backends_loop_no_casper (dns_rev : String → Option String)
    (casper : Finset (String × Int)) (sname : String)
    (hsp : strStartsWith sname "spectre." = false) :
    ∀ (hss : List HostStatus) (found : Bool) (bs : List (EnvoyBackend × Bool)),
      cluster_backends_loop dns_rev casper sname hss found = some bs →
      ∀ x ∈ bs, (x.1.address, x.1.port_value) ∉ casper := by
  intro hss
  induction hss with
  | nil =>
    intro found bs hb
    simp only [cluster_backends_loop, Option.some.injEq] at hb
    subst hb
    simp
  | cons h rest ih =>
    intro found bs hb
    simp only [cluster_backends_loop] at hb
    cases hs : skipHost casper sname h with
    | true =>
      rw [if_pos hs] at hb
      exact ih true bs hb
    | false =>
      rw [if_neg (by simp [hs])] at hb
      cases hmk : mkBackend dns_rev h with
      | none => rw [hmk] at hb; exact absurd hb (by simp)
      | some b =>
        rw [hmk] at hb
        cases hrec : cluster_backends_loop dns_rev casper sname rest found with
        | none => rw [hrec] at hb; exact absurd hb (by simp)
        | some bs2 =>
          rw [hrec] at hb
          simp only [Option.some.injEq] at hb
          subst hb
          intro x hx
          rcases List.mem_cons.mp hx with hx1 | hx2
          · subst hx1
            obtain ⟨ha, hp, _⟩ := mkBackend_some dns_rev h b hmk
            have : decide ((h.address, h.port_value) ∈ casper) = false := by
              simpa [skipHost, hsp] using hs
            simp only [ha, hp]
            simpa using this
          · exact ih found bs2 hrec x hx2

lemma cluster_backends_loop_hostname (dns_rev : String → Option String)
    (casper : Finset (String × Int)) (sname : String) :
    ∀ (hss : List HostStatus) (found : Bool) (bs : List (EnvoyBackend × Bool)),
      cluster_backends_loop dns_rev casper sname hss found = some bs →
      ∀ x ∈ bs, ∃ full, dns_rev x.1.address = some full ∧ x.1.hostname = firstLabel full := by
  intro hss
  induction hss with
  | nil =>
    intro found bs hb
    simp only [cluster_backends_loop, Option.some.injEq] at hb
    subst hb
    simp
  | cons h rest ih =>
    intro found bs hb
    simp only [cluster_backends_loop] at hb
    cases hs : skipHost casper sname h with
    | true =>
      rw [if_pos hs] at hb
      exact ih true bs hb
    | false =>
      rw [if_neg (by simp [hs])] at hb
      cases hmk : mkBackend dns_rev h with
      | none => rw [hmk] at hb; exact absurd hb (by simp)
      | some b =>
        rw [hmk] at hb
        cases hrec : cluster_backends_loop dns_rev casper sname rest found with
        | none => rw [hrec] at hb; exact absurd hb (by simp)
        | some bs2 =>
          rw [hrec] at hb
          simp only [Option.some.injEq] at hb
          subst hb
          intro x hx
          rcases List.mem_cons.mp hx with hx1 | hx2
          · subst hx1
            obtain ⟨ha, _, full, hfull, hname⟩ := mkBackend_some dns_rev h b hmk
            exact ⟨full, by rw [ha]; exact hfull, hname⟩
          · exact ih found bs2 hrec x hx2

lemma multiple_backends_loop_cons (dns_rev : String → Option String)
    (casper : Finset (String × Int)) (services : Option (List String))
    (c : ClusterStatus) (rest : ClusterSnapshot) :
    multiple_backends_loop dns_rev casper services (c :: rest) =
      if cluster_passes services c then
        match cluster_backends_loop dns_rev casper (service_of c) (cluster_hosts c) false,
              multiple_backends_loop dns_rev casper services rest with
        | some bs, some tail => some (bs ++ tail)
        | _, _ => none
      else multiple_backends_loop dns_rev casper services rest := by
  rcases hc : c.host_statuses with _ | hss <;>
    cases he : strEndsWith c.name ".egress_cluster" <;>
    cases hp : passesFilter services (service_of c) <;>
    cases ht : multiple_backends_loop dns_rev casper services rest <;>
    simp [multiple_backends_loop, cluster_passes, cluster_hosts, cluster_backends_loop,
      hc, he, hp, ht]

/-- The number of host statuses of the clusters surviving the
`.egress_cluster` suffix condition and the service filter. -/
def eligible_host_count (services : Option (List String)) (s : ClusterSnapshot) : Nat :=
  (s.map (fun c => if cluster_passes services c then (cluster_hosts c).length else 0)).sum

/-- The number of host statuses that the cluster loop skips (with respect to
a given casper endpoint set) because their `(address, port)` is a casper
endpoint of a non-`spectre.` service. -/
def skipped_count_with (casper : Finset (String × Int)) (services : Option (List String))
    (s : ClusterSnapshot) : Nat :=
  (s.map (fun c => if cluster_passes services c then
      ((cluster_hosts c).filter (skipHost casper (service_of c))).length
    else 0)).sum

lemma multiple_backends_loop_length (dns_rev : String → Option String)
    (casper : Finset (String × Int)) (services : Option (List String)) :
    ∀ (s : ClusterSnapshot) (bs : List (EnvoyBackend × Bool)),
      multiple_backends_loop dns_rev casper services s = some bs →
      bs.length + skipped_count_with casper services s = eligible_host_count services s := by
  intro s
  induction s with
  | nil =>
    intro bs hb
    simp only [multiple_backends_loop, Option.some.injEq] at hb
    subst hb
    simp [skipped_count_with, eligible_host_count]
  | cons c rest ih =>
    intro bs hb
    rw [multiple_backends_loop_cons] at hb
    cases hp : cluster_passes services c with
    | true =>
      rw [if_pos hp] at hb
      cases hcl : cluster_backends_loop dns_rev casper (service_of c) (cluster_hosts c) false with
      | none => rw [hcl] at hb; exact absurd hb (by simp)
      | some cbs =>
        cases ht : multiple_backends_loop dns_rev casper services rest with
        | none => rw [hcl, ht] at hb; exact absurd hb (by simp)
        | some tail =>
          rw [hcl, ht] at hb
          simp only [Option.some.injEq] at hb
          subst hb
          have h1 := cluster_backends_loop_length dns_rev casper (service_of c)
            (cluster_hosts c) false cbs hcl
          have h2 := ih tail ht
          simp only [skipped_count_with, eligible_host_count, List.map_cons, List.sum_cons,
            hp, if_pos, List.length_append] at h2 ⊢
          omega
    | false =>
      rw [if_neg (by simp [hp])] at hb
      have h2 := ih bs hb
      simp only [skipped_count_with, eligible_host_count, List.map_cons, List.sum_cons,
        hp, Bool.false_eq_true, if_false] at h2 ⊢
      omega

/-- The casper-flag column that the extraction actually produces: the
concatenation, over passing clusters, of the per-cluster flag lists, each
starting with the flag unset. -/
def casper_flags (casper : Finset (String × Int)) (services : Option (List String))
    (s : ClusterSnapshot) : List Bool :=
  (s.map (fun c => if cluster_passes services c then
      cluster_flags casper (service_of c) (cluster_hosts c) false
    else [])).flatten

lemma multiple_backends_loop_flags (dns_rev : String → Option String)
    (casper : Finset (String × Int)) (services : Option (List String)) :
    ∀ (s : ClusterSnapshot) (bs : List (EnvoyBackend × Bool)),
      multiple_backends_loop dns_rev casper services s = some bs →
      bs.map (fun x => x.2) = casper_flags casper services s := by
  intro s
  induction s with
  | nil =>
    intro bs hb
    simp only [multiple_backends_loop, Option.some.injEq] at hb
    subst hb
    simp [casper_flags]
  | cons c rest ih =>
    intro bs hb
    rw [multiple_backends_loop_cons] at hb
    cases hp : cluster_passes services c with
    | true =>
      rw [if_pos hp] at hb
      cases hcl : cluster_backends_loop dns_rev casper (service_of c) (cluster_hosts c) false with
      | none => rw [hcl] at hb; exact absurd hb (by simp)
      | some cbs =>
        cases ht : multiple_backends_loop dns_rev casper services rest with
        | none => rw [hcl, ht] at hb; exact absurd hb (by simp)
        | some tail =>
          rw [hcl, ht] at hb
          simp only [Option.some.injEq] at hb
          subst hb
          have h1 := cluster_backends_loop_flags dns_rev casper (service_of c)
            (cluster_hosts c) false cbs hcl
          have h2 := ih tail ht
          simp only [casper_flags, List.map_cons, List.flatten_cons, hp, if_pos,
            List.map_append] at h2 ⊢
          rw [h1, h2]
    | false =>
      rw [if_neg (by simp [hp])] at hb
      have h2 := ih bs hb
      simp only [casper_flags, List.map_cons, List.flatten_cons, hp, Bool.false_eq_true,
        if_false, List.nil_append] at h2 ⊢
      exact h2

lemma multiple_backends_loop_eq_none (dns_rev : String → Option String)
    (casper : Finset (String × Int)) (services : Option (List String)) :
    ∀ (s : ClusterSnapshot),
      (multiple_backends_loop dns_rev casper services s = none ↔
        ∃ c ∈ s, cluster_passes services c = true ∧
          ∃ h ∈ cluster_hosts c, skipHost casper (service_of c) h = false ∧
            dns_rev h.address = none) := by
  intro s
  induction s with
  | nil => simp [multiple_backends_loop]
  | cons c rest ih =>
    rw [multiple_backends_loop_cons]
    cases hp : cluster_passes services c with
    | true =>
      cases hcl : cluster_backends_loop dns_rev casper (service_of c) (cluster_hosts c) false with
      | none =>
        have hcf := (cluster_backends_loop_eq_none dns_rev casper (service_of c)
          (cluster_hosts c) false).mp hcl
        simp [List.exists_mem_cons_iff, hcf, hp]
      | some cbs =>
        have hcf : ¬ ∃ h ∈ cluster_hosts c, skipHost casper (service_of c) h = false ∧
            dns_rev h.address = none := by
          intro hcon
          rw [(cluster_backends_loop_eq_none dns_rev casper (service_of c)
            (cluster_hosts c) false).mpr hcon] at hcl
          exact absurd hcl (by simp)
        cases ht : multiple_backends_loop dns_rev casper services rest with
        | none =>
          have hre := ih.mp ht
          simp [hcl, List.exists_mem_cons_iff, hre, hp]
        | some tail =>
          have hre : ¬ ∃ c2 ∈ rest, cluster_passes services c2 = true ∧
              ∃ h ∈ cluster_hosts c2, skipHost casper (service_of c2) h = false ∧
                dns_rev h.address = none := by
            intro hcon
            rw [ih.mpr hcon] at ht
            exact absurd ht (by simp)
          simp [hcl, List.exists_mem_cons_iff, hcf, hre, hp]
    | false =>
      simp [ih, List.exists_mem_cons_iff, hp]

lemma multiple_backends_loop_hostnames (dns_rev : String → Option String)
    (casper : Finset (String × Int)) (services : Option (List String)) :
    ∀ (s : ClusterSnapshot) (bs : List (EnvoyBackend × Bool)),
      multiple_backends_loop dns_rev casper services s = some bs →
      ∀ x ∈ bs, ∃ full, dns_rev x.1.address = some full ∧ x.1.hostname = firstLabel full := by
  intro s
  induction s with
  | nil =>
    intro bs hb
    simp only [multiple_backends_loop, Option.some.injEq] at hb
    subst hb
    simp
  | cons c rest ih =>
    intro bs hb
    rw [multiple_backends_loop_cons] at hb
    cases hp : cluster_passes services c with
    | true =>
      rw [if_pos hp] at hb
      cases hcl : cluster_backends_loop dns_rev casper (service_of c) (cluster_hosts c) false with
      | none => rw [hcl] at hb; exact absurd hb (by simp)
      | some cbs =>
        cases ht : multiple_backends_loop dns_rev casper services rest with
        | none => rw [hcl, ht] at hb; exact absurd hb (by simp)
        | some tail =>
          rw [hcl, ht] at hb
          simp only [Option.some.injEq] at hb
          subst hb
          intro x hx
          rcases List.mem_append.mp hx with hx1 | hx2
          · exact cluster_backends_loop_hostname dns_rev casper (service_of c)
              (cluster_hosts c) false cbs hcl x hx1
          · exact ih tail ht x hx2
    | false =>
      rw [if_neg (by simp [hp])] at hb
      exact ih bs hb

def cxSpectreHost : HostStatus :=
  { address := "10.0.0.9", port_value := 9000, eds_health_status := "HEALTHY", weight := 1 }

def cxWebHost : HostStatus :=
  { address := "10.0.0.1", port_value := 8080, eds_health_status := "HEALTHY", weight := 2 }

def cxWebHost2 : HostStatus :=
  { address := "10.0.0.2", port_value := 8080, eds_health_status := "HEALTHY", weight := 3 }

def cxSpectreCluster : ClusterStatus :=
  { name := "spectre.foo.egress_cluster", host_statuses := some [cxSpectreHost] }

def cxWebCluster : ClusterStatus :=
  { name := "web.egress_cluster", host_statuses := some [cxWebHost, cxSpectreHost] }

def cxWebCluster3 : ClusterStatus :=
  { name := "web.egress_cluster", host_statuses := some [cxWebHost, cxSpectreHost, cxWebHost2] }

def cxSnapshot : ClusterSnapshot := [cxSpectreCluster, cxWebCluster]

def cx2Snapshot : ClusterSnapshot := [cxSpectreCluster, cxWebCluster3]

def cxDns : String → Option String := fun _ => some "host1.example.com"

def cxDnsFail : String → Option String :=
  fun a => if a = "10.0.0.9" then some "spec-host.example.com" else none

def cxSpectreBackend : EnvoyBackend :=
  { address := "10.0.0.9", port_value := 9000, hostname := "host1",
    eds_health_status := "HEALTHY", weight := 1 }

def cxWebBackend : EnvoyBackend :=
  { address := "10.0.0.1", port_value := 8080, hostname := "host1",
    eds_health_status := "HEALTHY", weight := 2 }

def cxWebBackend2 : EnvoyBackend :=
  { address := "10.0.0.2", port_value := 8080, hostname := "host1",
    eds_health_status := "HEALTHY", weight := 3 }

/-- C1 (counterexample): the claim that a non-`spectre.` cluster with a
casper-matching host status has *every* emitted Backend flagged
`isProxiedThroughCasper = true` fails on the code. In `cxSnapshot` the
`web.egress_cluster` cluster lists `cxWebHost` and then `cxSpectreHost`,
whose `(10.0.0.9, 9000)` is a casper endpoint, so the claim's premise
holds; yet the Backend emitted for `cxWebHost` — which precedes the first
casper match — carries the flag `false`: the code records the flag's value
at emission time and never updates earlier emissions retroactively. -/
theorem get_multiple_backends_no_retroactive_casper_flag :
    (("10.0.0.9", (9000 : Int)) ∈ get_casper_endpoints cxSnapshot) ∧
    strStartsWith (service_of cxWebCluster) "spectre." = false ∧
    (∃ h ∈ cluster_hosts cxWebCluster,
      (h.address, h.port_value) ∈ get_casper_endpoints cxSnapshot) ∧
    get_multiple_backends cxDns none cxSnapshot =
      some [(cxSpectreBackend, false), (cxWebBackend, false)] := by
  decide

/-- C1 (amended): a Backend's casper flag is the value the running
`casper_endpoint_found` flag had when the Backend was emitted: it is `true`
exactly when some host status *earlier* in the same cluster's list was
skipped as a casper endpoint, and `false` for Backends emitted before the
first casper match. The flag column of the result equals the concatenation
of the per-cluster `cluster_flags` lists (each starting from `false`). -/
theorem get_multiple_backends_casper_flags (dns_rev : String → Option String)
    (services : Option (List String)) (snapshot : ClusterSnapshot)
    (bs : List (EnvoyBackend × Bool))
    (hb : get_multiple_backends dns_rev services snapshot = some bs) :
    bs.map (fun x => x.2) = casper_flags (get_casper_endpoints snapshot) services snapshot :=
  multiple_backends_loop_flags dns_rev (get_casper_endpoints snapshot) services snapshot bs hb

/-- Witness for the amended C1: on `cx2Snapshot` the web cluster emits one
Backend before the casper match (flag `false`) and one after (flag `true`). -/
theorem get_multiple_backends_casper_flags_witness :
    [(cxSpectreBackend, false), (cxWebBackend, false), (cxWebBackend2, true)].map
        (fun x => x.2) =
      casper_flags (get_casper_endpoints cx2Snapshot) none cx2Snapshot :=
  get_multiple_backends_casper_flags cxDns none cx2Snapshot
    [(cxSpectreBackend, false), (cxWebBackend, false), (cxWebBackend2, true)] (by decide)

/-- C4: on every snapshot for which extraction succeeds, the number of
Backends extracted plus the number of host statuses skipped by the casper
exclusion equals the total number of host statuses under clusters whose
name ends with `.egress_cluster` and whose service name passes the active
service filter. -/
theorem get_multiple_backends_count (dns_rev : String → Option String)
    (services : Option (List String)) (snapshot : ClusterSnapshot)
    (bs : List (EnvoyBackend × Bool))
    (hb : get_multiple_backends dns_rev services snapshot = some bs) :
    bs.length + skipped_count_with (get_casper_endpoints snapshot) services snapshot =
      eligible_host_count services snapshot :=
  multiple_backends_loop_length dns_rev (get_casper_endpoints snapshot) services snapshot bs hb

/-- Witness for C4 at a concrete snapshot: 2 emitted + 1 skipped = 3
eligible host statuses. -/
theorem get_multiple_backends_count_witness :
    ([(cxSpectreBackend, false), (cxWebBackend, false)] : List (EnvoyBackend × Bool)).length +
        skipped_count_with (get_casper_endpoints cxSnapshot) none cxSnapshot =
      eligible_host_count none cxSnapshot :=
  get_multiple_backends_count cxDns none cxSnapshot
    [(cxSpectreBackend, false), (cxWebBackend, false)] (by decide)

/-- C7: extraction is all-or-nothing with respect to reverse DNS: the call
returns `none` (the propagated resolution error) exactly when some host
status that would be emitted as a Backend (i.e. in a passing cluster and
not skipped by the casper rule) has an unresolvable address; and on
success every Backend's hostname is the first label before the first dot
of the reverse-resolved name of its address. -/
theorem get_multiple_backends_all_or_nothing (dns_rev : String → Option String)
    (services : Option (List String)) (snapshot : ClusterSnapshot) :
    (get_multiple_backends dns_rev services snapshot = none ↔
      ∃ c ∈ snapshot, cluster_passes services c = true ∧
        ∃ h ∈ cluster_hosts c,
          skipHost (get_casper_endpoints snapshot) (service_of c) h = false ∧
          dns_rev h.address = none) ∧
    (∀ (bs : List (EnvoyBackend × Bool)) (x : EnvoyBackend × Bool),
      get_multiple_backends dns_rev services snapshot = some bs → x ∈ bs →
      ∃ full, dns_rev x.1.address = some full ∧ x.1.hostname = firstLabel full) :=
  ⟨multiple_backends_loop_eq_none dns_rev (get_casper_endpoints snapshot) services snapshot,
   fun bs x hb hx =>
     multiple_backends_loop_hostnames dns_rev (get_casper_endpoints snapshot) services
       snapshot bs hb x hx⟩

/-- Witness for C7: with a DNS that cannot resolve `10.0.0.1` the whole
extraction over `cxSnapshot` fails (no partial result), and with a total
DNS the emitted spectre Backend's hostname is the first label of the
resolved name. -/
theorem get_multiple_backends_all_or_nothing_witness :
    get_multiple_backends cxDnsFail none cxSnapshot = none ∧
    (∃ full, cxDns cxSpectreBackend.address = some full ∧
      cxSpectreBackend.hostname = firstLabel full) :=
  ⟨(get_multiple_backends_all_or_nothing cxDnsFail none cxSnapshot).1.mpr
      ⟨cxWebCluster, by decide, by decide, cxWebHost, by decide, by decide, by decide⟩,
   (get_multiple_backends_all_or_nothing cxDns none cxSnapshot).2
      [(cxSpectreBackend, false), (cxWebBackend, false)] (cxSpectreBackend, false)
      (by decide) (by decide)⟩

/-- C8: a cluster whose service name starts with `spectre.` never has its
own host statuses excluded by the casper rule — the cluster's backend list
covers every host status, in order, even when a host's `(address, port)`
is in the casper endpoint set — while a non-`spectre.` cluster's backend
list never contains any backend whose `(address, port)` is a casper
endpoint (such host statuses are excluded from its own list). -/
theorem spectre_clusters_not_excluded (dns_rev : String → Option String)
    (snapshot : ClusterSnapshot) (service_name : String) (hss : List HostStatus) :
    (strStartsWith service_name "spectre." = true →
      ∀ bs, cluster_backends_loop dns_rev (get_casper_endpoints snapshot) service_name
          hss false = some bs →
        bs.map (fun x => (x.1.address, x.1.port_value)) =
          hss.map (fun h => (h.address, h.port_value))) ∧
    (strStartsWith service_name "spectre." = false →
      ∀ bs, cluster_backends_loop dns_rev (get_casper_endpoints snapshot) service_name
          hss false = some bs →
        ∀ x ∈ bs, (x.1.address, x.1.port_value) ∉ get_casper_endpoints snapshot) :=
  ⟨fun hsp bs hb =>
      cluster_backends_loop_spectre dns_rev (get_casper_endpoints snapshot) service_name hsp
        hss false bs hb,
   fun hsp bs hb =>
      cluster_backends_loop_no_casper dns_rev (get_casper_endpoints snapshot) service_name hsp
        hss false bs hb⟩

/-- Witness for C8: the `spectre.foo` cluster keeps its backend at the
casper endpoint `(10.0.0.9, 9000)`, while the `web` cluster's emitted
backends contain no casper endpoint. -/
theorem spectre_clusters_not_excluded_witness :
    ([(cxSpectreBackend, false)].map (fun x => (x.1.address, x.1.port_value)) =
      [cxSpectreHost].map (fun h => (h.address, h.port_value))) ∧
    (∀ x ∈ [(cxWebBackend, false)],
      (x.1.address, x.1.port_value) ∉ get_casper_endpoints cxSnapshot) :=
  ⟨(spectre_clusters_not_excluded cxDns cxSnapshot "spectre.foo" [cxSpectreHost]).1
      (by decide) [(cxSpectreBackend, false)] (by decide),
   (spectre_clusters_not_excluded cxDns cxSnapshot "web" [cxWebHost, cxSpectreHost]).2
      (by decide) [(cxWebBackend, false)] (by decide)⟩

/-- C10: `get_backends` treats a falsy `service` argument (`None` or the
empty string) as "all services": it calls `get_multiple_backends` with
`services = None`, so no service filter is applied. -/
theorem get_backends_falsy_service (dns_rev : String → Option String)
    (snapshot : ClusterSnapshot) (service : Option String)
    (h : service = none ∨ service = some "") :
    get_backends dns_rev service snapshot = get_multiple_backends dns_rev none snapshot := by
  rcases h with h | h <;> subst h <;> simp [get_backends]

/-- Witness for C10 at the empty-string service. -/
theorem get_backends_falsy_service_witness :
    get_backends cxDns (some "") cxSnapshot = get_multiple_backends cxDns none cxSnapshot :=
  get_backends_falsy_service cxDns cxSnapshot (some "") (Or.inr rfl)

/-- One correlation pair `(backend, task)`, either side possibly absent
(`(backend, None)` / `(None, task)`). -/
abbrev Pair := Option EnvoyBackend × Option MarathonTask

/-- The `backends_by_ip_port` mapping: a `collections.defaultdict` whose
iteration order (Python 3.7+) is first-insertion order of keys, modelled as
an ordered association list. -/
abbrev Groups := List ((String × Int) × List EnvoyBackend)

/-- `backends_by_ip_port[ip, port].append(backend)`: append to the existing
group, or create a new group at the end. -/
def addToGroups (groups : Groups) (key : String × Int) (b : EnvoyBackend) : Groups :=
  match groups with
  | [] => [(key, [b])]
  | e :: rest =>
    if e.1 = key then (e.1, e.2 ++ [b]) :: rest
    else e :: addToGroups rest key b

/-- The grouping loop: `for backend in backends:
backends_by_ip_port[ip, port].append(backend)`. -/
def groupsOf (backends : List EnvoyBackend) : Groups :=
  backends.foldl (fun g b => addToGroups g (b.address, b.port_value) b) []

/-- `backends_by_ip_port.pop((ip, port), default)`: the stored list when the
key is present (removing the entry), `none` otherwise. -/
def popGroup (key : String × Int) : Groups → Option (List EnvoyBackend) × Groups
  | [] => (none, [])
  | e :: rest =>
    if e.1 = key then (some e.2, rest)
    else
      let r := popGroup key rest
      (r.1, e :: r.2)

/-- The inner `for port in task.ports` loop: pop the group at `(ip, port)`
and pair every popped backend with the task, or emit the single
`(None, task)` pair when the key is absent. -/
def ports_loop (t : MarathonTask) (ip : String) : List Int → Groups → List Pair × Groups
  | [], g => ([], g)
  | port :: ps, g =>
    match popGroup (ip, port) g with
    | (some bs, g2) =>
      let r := ports_loop t ip ps g2
      (bs.map (fun b => (some b, some t)) ++ r.1, r.2)
    | (none, _) =>
      let r := ports_loop t ip ps g
      (((none : Option EnvoyBackend), some t) :: r.1, r.2)

/-- The `for task in tasks` loop: resolve the task's host (a failed
`socket.gethostbyname` aborts the whole call), then run the port loop. -/
def tasks_loop (dns_fwd : String → Option String) :
    List MarathonTask → Groups → Option (List Pair × Groups)
  | [], g => some ([], g)
  | t :: ts, g =>
    match dns_fwd t.host with
    | none => none
    | some ip =>
      let r := ports_loop t ip t.ports g
      match tasks_loop dns_fwd ts r.2 with
      | none => none
      | some (pairs, rest) => some (r.1 ++ pairs, rest)

/-- The final sweep: everything left in the mapping did not match any task
and is emitted as `(backend, None)` in remaining group order. -/
def leftover_pairs (groups : Groups) : List Pair :=
  groups.flatMap (fun e => e.2.map (fun b => ((some b : Option EnvoyBackend),
    (none : Option MarathonTask))))

/-- Embedding of `match_backends_and_tasks`: group the backends by
`(address, port_value)`, run the task/port loops (popping groups as they
match), then append the leftover sweep. -/
def match_backends_and_tasks (dns_fwd : String → Option String)
    (backends : List EnvoyBackend) (tasks : List MarathonTask) : Option (List Pair) :=
  match tasks_loop dns_fwd tasks (groupsOf backends) with
  | none => none
  | some (pairs, rest) => some (pairs ++ leftover_pairs rest)

/-- All backends stored in the mapping, in group order. -/
def gFlatten (g : Groups) : List EnvoyBackend := g.flatMap (fun e => e.2)

/-- Every group holds exactly the backends whose `(address, port_value)`
equals its key. -/
def GroupsWF (g : Groups) : Prop :=
  ∀ e ∈ g, ∀ b ∈ e.2, (b.address, b.port_value) = e.1

/-- Every group in the mapping is non-empty. -/
def GroupsNE (g : Groups) : Prop := ∀ e ∈ g, e.2 ≠ []


lemma gFlatten_nil : gFlatten [] = [] := rfl

lemma gFlatten_cons (e : (String × Int) × List EnvoyBackend) (rest : Groups) :
    gFlatten (e :: rest) = e.2 ++ gFlatten rest := by
  simp [gFlatten]

lemma popGroup_cons_pos (key : String × Int) (e : (String × Int) × List EnvoyBackend)
    (rest : Groups) (he : e.1 = key) :
    popGroup key (e :: rest) = (some e.2, rest) := by
  simp [popGroup, he]

lemma popGroup_cons_neg (key : String × Int) (e : (String × Int) × List EnvoyBackend)
    (rest : Groups) (he : ¬ e.1 = key) :
    popGroup key (e :: rest) = ((popGroup key rest).1, e :: (popGroup key rest).2) := by
  simp [popGroup, he]

lemma popGroup_sub (key : String × Int) :
    ∀ (g : Groups), (popGroup key g).2.Sublist g := by
  intro g
  induction g with
  | nil => simp [popGroup]
  | cons e rest ih =>
    by_cases he : e.1 = key
    · rw [popGroup_cons_pos key e rest he]
      exact List.sublist_cons_self e rest
    · rw [popGroup_cons_neg key e rest he]
      exact ih.cons₂ e

lemma popGroup_perm (key : String × Int) :
    ∀ (g : Groups) (bs : List EnvoyBackend),
      (popGroup key g).1 = some bs →
      List.Perm (bs ++ gFlatten (popGroup key g).2) (gFlatten g) := by
  intro g
  induction g with
  | nil => intro bs h; simp [popGroup] at h
  | cons e rest ih =>
    intro bs h
    by_cases he : e.1 = key
    · rw [popGroup_cons_pos key e rest he] at h ⊢
      simp only [Option.some.injEq] at h
      subst h
      rw [gFlatten_cons]
    · rw [popGroup_cons_neg key e rest he] at h ⊢
      simp only at h
      have hperm := ih bs h
      rw [gFlatten_cons, gFlatten_cons]
      exact (List.perm_append_comm_assoc bs e.2 _).trans (List.Perm.append_left e.2 hperm)

lemma popGroup_some_mem (key : String × Int) :
    ∀ (g : Groups) (bs : List EnvoyBackend),
      (popGroup key g).1 = some bs → (key, bs) ∈ g := by
  intro g
  induction g with
  | nil => intro bs h; simp [popGroup] at h
  | cons e rest ih =>
    intro bs h
    by_cases he : e.1 = key
    · rw [popGroup_cons_pos key e rest he] at h
      simp only [Option.some.injEq] at h
      subst h
      have : (key, e.2) = e := by
        rcases e with ⟨k, l⟩
        simp only at he
        rw [he]
      rw [this]
      simp
    · rw [popGroup_cons_neg key e rest he] at h
      simp only at h
      exact List.mem_cons_of_mem e (ih bs h)

lemma addToGroups_flatten (key : String × Int) (b : EnvoyBackend) :
    ∀ (g : Groups),
      List.Perm (gFlatten (addToGroups g key b)) (gFlatten g ++ [b]) := by
  intro g
  induction g with
  | nil => simp [addToGroups, gFlatten]
  | cons e rest ih =>
    by_cases he : e.1 = key
    · simp only [addToGroups, if_pos he]
      rw [gFlatten_cons, gFlatten_cons]
      simp only [List.append_assoc]
      exact List.Perm.append_left e.2 List.perm_append_comm
    · simp only [addToGroups, if_neg he]
      rw [gFlatten_cons, gFlatten_cons]
      rw [List.append_assoc]
      exact List.Perm.append_left e.2 ih

lemma groupsOf_flatten_perm (backends : List EnvoyBackend) :
    List.Perm (gFlatten (groupsOf backends)) backends := by
  suffices h : ∀ (bs : List EnvoyBackend) (g : Groups),
      List.Perm
        (gFlatten (bs.foldl (fun g b => addToGroups g (b.address, b.port_value) b) g))
        (gFlatten g ++ bs) by
    simpa [groupsOf, gFlatten] using h backends []
  intro bs
  induction bs with
  | nil => intro g; simp
  | cons b rest ih =>
    intro g
    simp only [List.foldl_cons]
    refine (ih _).trans ?_
    refine (List.Perm.append_right rest (addToGroups_flatten _ b g)).trans ?_
    simp

lemma addToGroups_wf (b : EnvoyBackend) :
    ∀ (g : Groups), GroupsWF g →
      GroupsWF (addToGroups g (b.address, b.port_value) b) := by
  intro g
  induction g with
  | nil =>
    intro _ e he b2 hb2
    simp only [addToGroups, List.mem_singleton] at he
    subst he
    simp only [List.mem_singleton] at hb2
    subst hb2
    rfl
  | cons e0 rest ih =>
    intro hwf e he b2 hb2
    by_cases he0 : e0.1 = (b.address, b.port_value)
    · simp only [addToGroups, if_pos he0] at he
      rcases List.mem_cons.mp he with heq | htail
      · subst heq
        simp only at hb2
        rcases List.mem_append.mp hb2 with h1 | h1
        · exact hwf e0 (by simp) b2 h1
        · simp only [List.mem_singleton] at h1
          subst h1
          exact he0.symm
      · exact hwf e (by simp [htail]) b2 hb2
    · simp only [addToGroups, if_neg he0] at he
      rcases List.mem_cons.mp he with heq | htail
      · rw [heq] at hb2 ⊢
        exact hwf e0 (by simp) b2 hb2
      · exact ih (fun e2 he2 => hwf e2 (by simp [he2])) e htail b2 hb2

lemma groupsOf_wf (backends : List EnvoyBackend) : GroupsWF (groupsOf backends) := by
  suffices h : ∀ (bs : List EnvoyBackend) (g : Groups), GroupsWF g →
      GroupsWF (bs.foldl (fun g b => addToGroups g (b.address, b.port_value) b) g) by
    exact h backends [] (by intro e he; simp at he)
  intro bs
  induction bs with
  | nil => intro g hg; exact hg
  | cons b rest ih =>
    intro g hg
    exact ih _ (addToGroups_wf b g hg)

lemma addToGroups_ne (key : String × Int) (b : EnvoyBackend) :
    ∀ (g : Groups), GroupsNE g → GroupsNE (addToGroups g key b) := by
  intro g
  induction g with
  | nil =>
    intro _ e he
    simp only [addToGroups, List.mem_singleton] at he
    subst he
    simp
  | cons e0 rest ih =>
    intro hne e he
    by_cases he0 : e0.1 = key
    · simp only [addToGroups, if_pos he0] at he
      rcases List.mem_cons.mp he with heq | htail
      · subst heq; simp
      · exact hne e (by simp [htail])
    · simp only [addToGroups, if_neg he0] at he
      rcases List.mem_cons.mp he with heq | htail
      · rw [heq]; exact hne e0 (by simp)
      · exact ih (fun e2 he2 => hne e2 (by simp [he2])) e htail

lemma groupsOf_ne (backends : List EnvoyBackend) : GroupsNE (groupsOf backends) := by
  suffices h : ∀ (bs : List EnvoyBackend) (g : Groups), GroupsNE g →
      GroupsNE (bs.foldl (fun g b => addToGroups g (b.address, b.port_value) b) g) by
    exact h backends [] (by intro e he; simp at he)
  intro bs
  induction bs with
  | nil => intro g hg; exact hg
  | cons b rest ih =>
    intro g hg
    exact ih _ (addToGroups_ne _ b g hg)

lemma sublist_wf {g g2 : Groups} (hwf : GroupsWF g) (hs : g2.Sublist g) : GroupsWF g2 :=
  fun e he => hwf e (hs.subset he)

lemma sublist_ne {g g2 : Groups} (hne : GroupsNE g) (hs : g2.Sublist g) : GroupsNE g2 :=
  fun e he => hne e (hs.subset he)

lemma ports_loop_task_side (t : MarathonTask) (ip : String) :
    ∀ (ps : List Int) (g : Groups), ∀ p ∈ (ports_loop t ip ps g).1, p.2 = some t := by
  intro ps
  induction ps with
  | nil => intro g p hp; simp [ports_loop] at hp
  | cons port ps ih =>
    intro g p hp
    cases hpop : popGroup (ip, port) g with
    | mk o g2 =>
      cases o with
      | some bs =>
        simp only [ports_loop, hpop] at hp
        rcases List.mem_append.mp hp with h1 | h1
        · obtain ⟨b, _, hb⟩ := List.mem_map.mp h1
          rw [← hb]
        · exact ih g2 p h1
      | none =>
        simp only [ports_loop, hpop] at hp
        rcases List.mem_cons.mp hp with h1 | h1
        · rw [h1]
        · exact ih g p h1

lemma ports_loop_perm (t : MarathonTask) (ip : String) :
    ∀ (ps : List Int) (g : Groups),
      List.Perm
        ((ports_loop t ip ps g).1.filterMap (fun p => p.1) ++
          gFlatten (ports_loop t ip ps g).2)
        (gFlatten g) := by
  intro ps
  induction ps with
  | nil => intro g; simp [ports_loop]
  | cons port ps ih =>
    intro g
    cases hpop : popGroup (ip, port) g with
    | mk o g2 =>
      cases o with
      | some bs =>
        have hperm := popGroup_perm (ip, port) g bs (by rw [hpop])
        rw [hpop] at hperm
        simp only [ports_loop, hpop, List.filterMap_append, List.filterMap_map]
        have hfm : List.filterMap ((fun p : Pair => p.1) ∘ fun b => (some b, some t)) bs
            = bs := List.filterMap_some bs
        rw [hfm, List.append_assoc]
        exact (List.Perm.append_left bs (ih g2)).trans hperm
      | none =>
        simp only [ports_loop, hpop, List.filterMap_cons]
        exact ih g

lemma ports_loop_sub (t : MarathonTask) (ip : String) :
    ∀ (ps : List Int) (g : Groups), (ports_loop t ip ps g).2.Sublist g := by
  intro ps
  induction ps with
  | nil => intro g; exact List.Sublist.refl g
  | cons port ps ih =>
    intro g
    cases hpop : popGroup (ip, port) g with
    | mk o g2 =>
      cases o with
      | some bs =>
        have hsub : g2.Sublist g := by
          have := popGroup_sub (ip, port) g
          rw [hpop] at this
          exact this
        simp only [ports_loop, hpop]
        exact (ih g2).trans hsub
      | none =>
        simp only [ports_loop, hpop]
        exact ih g

lemma ports_loop_min (t : MarathonTask) (ip : String) :
    ∀ (ps : List Int) (g : Groups), GroupsNE g →
      ps.length ≤ (ports_loop t ip ps g).1.length := by
  intro ps
  induction ps with
  | nil => intro g _; simp
  | cons port ps ih =>
    intro g hne
    cases hpop : popGroup (ip, port) g with
    | mk o g2 =>
      cases o with
      | some bs =>
        have hmem : ((ip, port), bs) ∈ g := popGroup_some_mem (ip, port) g bs (by rw [hpop])
        have hbs : bs ≠ [] := hne _ hmem
        have hbs1 : 1 ≤ bs.length := by
          cases bs with
          | nil => exact absurd rfl hbs
          | cons a l => simp
        have hsub : g2.Sublist g := by
          have := popGroup_sub (ip, port) g
          rw [hpop] at this
          exact this
        have := ih g2 (sublist_ne hne hsub)
        simp only [ports_loop, hpop, List.length_append, List.length_map, List.length_cons]
        omega
      | none =>
        have := ih g hne
        simp only [ports_loop, hpop, List.length_cons]
        omega

lemma tasks_loop_task_side (dns_fwd : String → Option String) :
    ∀ (ts : List MarathonTask) (g : Groups) (pairs : List Pair) (rest : Groups),
      tasks_loop dns_fwd ts g = some (pairs, rest) → ∀ p ∈ pairs, p.2.isSome := by
  intro ts
  induction ts with
  | nil =>
    intro g pairs rest hb p hp
    simp only [tasks_loop, Option.some.injEq, Prod.mk.injEq] at hb
    rw [← hb.1] at hp
    simp at hp
  | cons t ts ih =>
    intro g pairs rest hb p hp
    cases hdns : dns_fwd t.host with
    | none => simp only [tasks_loop, hdns] at hb; exact Option.noConfusion hb
    | some ip =>
      simp only [tasks_loop, hdns] at hb
      cases hrec : tasks_loop dns_fwd ts (ports_loop t ip t.ports g).2 with
      | none => rw [hrec] at hb; exact absurd hb (by simp)
      | some pr =>
        rcases pr with ⟨p1, r1⟩
        rw [hrec] at hb
        simp only [Option.some.injEq, Prod.mk.injEq] at hb
        rw [← hb.1] at hp
        rcases List.mem_append.mp hp with h1 | h1
        · rw [ports_loop_task_side t ip t.ports g p h1]
          rfl
        · exact ih _ p1 r1 hrec p h1

lemma tasks_loop_perm (dns_fwd : String → Option String) :
    ∀ (ts : List MarathonTask) (g : Groups) (pairs : List Pair) (rest : Groups),
      tasks_loop dns_fwd ts g = some (pairs, rest) →
      List.Perm (pairs.filterMap (fun p => p.1) ++ gFlatten rest) (gFlatten g) := by
  intro ts
  induction ts with
  | nil =>
    intro g pairs rest hb
    simp only [tasks_loop, Option.some.injEq, Prod.mk.injEq] at hb
    rw [← hb.1, ← hb.2]
    simp
  | cons t ts ih =>
    intro g pairs rest hb
    cases hdns : dns_fwd t.host with
    | none => simp only [tasks_loop, hdns] at hb; exact Option.noConfusion hb
    | some ip =>
      simp only [tasks_loop, hdns] at hb
      cases hrec : tasks_loop dns_fwd ts (ports_loop t ip t.ports g).2 with
      | none => rw [hrec] at hb; exact absurd hb (by simp)
      | some pr =>
        rcases pr with ⟨p1, r1⟩
        rw [hrec] at hb
        simp only [Option.some.injEq, Prod.mk.injEq] at hb
        rw [← hb.1, ← hb.2]
        have h1 := ih _ p1 r1 hrec
        have h2 := ports_loop_perm t ip t.ports g
        rw [List.filterMap_append, List.append_assoc]
        exact (List.Perm.append_left _ h1).trans h2

lemma tasks_loop_sub (dns_fwd : String → Option String) :
    ∀ (ts : List MarathonTask) (g : Groups) (pairs : List Pair) (rest : Groups),
      tasks_loop dns_fwd ts g = some (pairs, rest) → rest.Sublist g := by
  intro ts
  induction ts with
  | nil =>
    intro g pairs rest hb
    simp only [tasks_loop, Option.some.injEq, Prod.mk.injEq] at hb
    rw [← hb.2]
  | cons t ts ih =>
    intro g pairs rest hb
    cases hdns : dns_fwd t.host with
    | none => simp only [tasks_loop, hdns] at hb; exact Option.noConfusion hb
    | some ip =>
      simp only [tasks_loop, hdns] at hb
      cases hrec : tasks_loop dns_fwd ts (ports_loop t ip t.ports g).2 with
      | none => rw [hrec] at hb; exact absurd hb (by simp)
      | some pr =>
        rcases pr with ⟨p1, r1⟩
        rw [hrec] at hb
        simp only [Option.some.injEq, Prod.mk.injEq] at hb
        rw [← hb.2]
        exact (ih _ p1 r1 hrec).trans (ports_loop_sub t ip t.ports g)

lemma tasks_loop_min (dns_fwd : String → Option String) :
    ∀ (ts : List MarathonTask) (g : Groups) (pairs : List Pair) (rest : Groups),
      GroupsNE g → tasks_loop dns_fwd ts g = some (pairs, rest) →
      (ts.map (fun t => t.ports.length)).sum ≤ pairs.length := by
  intro ts
  induction ts with
  | nil =>
    intro g pairs rest _ hb
    simp
  | cons t ts ih =>
    intro g pairs rest hne hb
    cases hdns : dns_fwd t.host with
    | none => simp only [tasks_loop, hdns] at hb; exact Option.noConfusion hb
    | some ip =>
      simp only [tasks_loop, hdns] at hb
      cases hrec : tasks_loop dns_fwd ts (ports_loop t ip t.ports g).2 with
      | none => rw [hrec] at hb; exact absurd hb (by simp)
      | some pr =>
        rcases pr with ⟨p1, r1⟩
        rw [hrec] at hb
        simp only [Option.some.injEq, Prod.mk.injEq] at hb
        rw [← hb.1]
        have hne2 : GroupsNE (ports_loop t ip t.ports g).2 :=
          sublist_ne hne (ports_loop_sub t ip t.ports g)
        have h1 := ih _ p1 r1 hne2 hrec
        have h2 := ports_loop_min t ip t.ports g hne
        simp only [List.map_cons, List.sum_cons, List.length_append]
        omega

lemma leftover_pairs_fst (g : Groups) :
    (leftover_pairs g).filterMap (fun p => p.1) = gFlatten g := by
  induction g with
  | nil => simp [leftover_pairs, gFlatten]
  | cons e rest ih =>
    simp only [leftover_pairs, gFlatten, List.flatMap_cons, List.filterMap_append,
      List.filterMap_map] at ih ⊢
    rw [ih]
    have hfm : List.filterMap
        ((fun p : Pair => p.1) ∘ fun b => ((some b : Option EnvoyBackend),
          (none : Option MarathonTask))) e.2 = e.2 := List.filterMap_some e.2
    rw [hfm]

lemma leftover_pairs_snd (g : Groups) :
    ∀ p ∈ leftover_pairs g, p.2 = none ∧ p.1.isSome := by
  intro p hp
  simp only [leftover_pairs, List.mem_flatMap, List.mem_map] at hp
  obtain ⟨e, _, b, _, hb⟩ := hp
  rw [← hb]
  simp

lemma leftover_pairs_length (g : Groups) :
    (leftover_pairs g).length = (gFlatten g).length := by
  induction g with
  | nil => simp [leftover_pairs, gFlatten]
  | cons e rest ih =>
    simp only [leftover_pairs, gFlatten, List.flatMap_cons, List.length_append,
      List.length_map] at ih ⊢
    omega

lemma pairs_length_split (l : List Pair) :
    l.length = (l.filterMap (fun p => p.1)).length + l.countP (fun p => p.1.isNone) := by
  induction l with
  | nil => simp
  | cons p l ih =>
    cases hp : p.1 with
    | none =>
      simp [List.filterMap_cons, hp, List.countP_cons]
      omega
    | some b =>
      simp [List.filterMap_cons, hp, List.countP_cons]
      omega

def mtTask : MarathonTask := { host := "taskhost", ports := [8080] }

def mtDns : String → Option String := fun _ => some "10.0.0.1"

def mtBackend1 : EnvoyBackend :=
  { address := "10.0.0.1", port_value := 8080, hostname := "h1",
    eds_health_status := "HEALTHY", weight := 1 }

def mtBackend2 : EnvoyBackend :=
  { address := "10.0.0.1", port_value := 8080, hostname := "h2",
    eds_health_status := "HEALTHY", weight := 2 }

/-- C2 (counterexample): the claim that each (Task, port) combination
appears in exactly one pair fails when several backends share one
`(ip, port)`: with two backends at `(10.0.0.1, 8080)` and one task exposing
the single port `8080`, the task appears in two pairs (one per backend at
its key), not in exactly `N = 1` pair. -/
theorem match_backends_and_tasks_task_multiplicity :
    mtTask.ports.length = 1 ∧
    match_backends_and_tasks mtDns [mtBackend1, mtBackend2] [mtTask] =
      some [(some mtBackend1, some mtTask), (some mtBackend2, some mtTask)] ∧
    ((match_backends_and_tasks mtDns [mtBackend1, mtBackend2] [mtTask]).getD []).countP
        (fun p => decide (p.2 = some mtTask)) = 2 := by
  decide

/-- C2 (amended): for every resolvable input, each input Backend appears in
exactly one pair as the Backend side (the Backend sides of the output are a
permutation of the input backends), and the total number of pairs equals
the number of Backends plus the number of unmatched task-ports (pairs with
an absent Backend side, all of which carry a task); but a (Task, port)
combination appears once per backend grouped at its resolved key when
matched — at least once, and `Σ ports` is only a lower bound on the pair
count — not always exactly once. -/
theorem match_backends_and_tasks_multiplicity (dns_fwd : String → Option String)
    (backends : List EnvoyBackend) (tasks : List MarathonTask) (out : List Pair)
    (h : match_backends_and_tasks dns_fwd backends tasks = some out) :
    List.Perm (out.filterMap (fun p => p.1)) backends ∧
    out.length = backends.length + out.countP (fun p => p.1.isNone) ∧
    (∀ p ∈ out, p.1 = none → p.2.isSome) ∧
    (tasks.map (fun t => t.ports.length)).sum ≤ out.length := by
  unfold match_backends_and_tasks at h
  cases hrec : tasks_loop dns_fwd tasks (groupsOf backends) with
  | none => rw [hrec] at h; exact absurd h (by simp)
  | some pr =>
    rcases pr with ⟨pairs, rest⟩
    rw [hrec] at h
    simp only [Option.some.injEq] at h
    subst h
    have hperm := tasks_loop_perm dns_fwd tasks (groupsOf backends) pairs rest hrec
    have hgperm := groupsOf_flatten_perm backends
    have hfm : (pairs ++ leftover_pairs rest).filterMap (fun p => p.1)
        = pairs.filterMap (fun p => p.1) ++ gFlatten rest := by
      rw [List.filterMap_append, leftover_pairs_fst]
    refine ⟨?_, ?_, ?_, ?_⟩
    · rw [hfm]
      exact hperm.trans hgperm
    · have hlen1 : (pairs.filterMap (fun p => p.1)).length + (gFlatten rest).length
          = backends.length := by
        have hl := (hperm.trans hgperm).length_eq
        simpa [List.length_append] using hl
      have hsplit := pairs_length_split pairs
      have hzero : (leftover_pairs rest).countP (fun p => p.1.isNone) = 0 := by
        rw [List.countP_eq_zero]
        intro p hp
        have h2 := (leftover_pairs_snd rest p hp).2
        cases hq : p.1 with
        | none => rw [hq] at h2; simp at h2
        | some b => simp [hq]
      have hcount : (pairs ++ leftover_pairs rest).countP (fun p => p.1.isNone)
          = pairs.countP (fun p => p.1.isNone) := by
        rw [List.countP_append, hzero]
        omega
      have hlo := leftover_pairs_length rest
      rw [hcount, List.length_append]
      omega
    · intro p hp hnone
      rcases List.mem_append.mp hp with h1 | h1
      · exact tasks_loop_task_side dns_fwd tasks (groupsOf backends) pairs rest hrec p h1
      · have h2 := (leftover_pairs_snd rest p h1).2
        rw [hnone] at h2
        simp at h2
    · have hmin := tasks_loop_min dns_fwd tasks (groupsOf backends) pairs rest
        (groupsOf_ne backends) hrec
      rw [List.length_append]
      omega

/-- Witness for the amended C2 on the two-backends-one-key example. -/
theorem match_backends_and_tasks_multiplicity_witness :
    List.Perm
      (([(some mtBackend1, some mtTask), (some mtBackend2, some mtTask)] : List Pair).filterMap
        (fun p => p.1)) [mtBackend1, mtBackend2] ∧
    ([(some mtBackend1, some mtTask), (some mtBackend2, some mtTask)] : List Pair).length =
      [mtBackend1, mtBackend2].length +
        ([(some mtBackend1, some mtTask), (some mtBackend2, some mtTask)] : List Pair).countP
          (fun p => p.1.isNone) ∧
    (∀ p ∈ ([(some mtBackend1, some mtTask), (some mtBackend2, some mtTask)] : List Pair),
      p.1 = none → p.2.isSome) ∧
    ([mtTask].map (fun t => t.ports.length)).sum ≤
      ([(some mtBackend1, some mtTask), (some mtBackend2, some mtTask)] : List Pair).length :=
  match_backends_and_tasks_multiplicity mtDns [mtBackend1, mtBackend2] [mtTask]
    [(some mtBackend1, some mtTask), (some mtBackend2, some mtTask)] (by decide)

/-- The shape of the pairs one (task, port) occurrence contributes: the
single unmatched pair, or one pair per popped backend — every pair carrying
this task, every backend carrying this port. -/
def IsPortBlock (t : MarathonTask) (port : Int) (blk : List Pair) : Prop :=
  blk = [((none : Option EnvoyBackend), some t)] ∨
    (blk ≠ [] ∧ ∀ p ∈ blk, p.2 = some t ∧ ∃ b, p.1 = some b ∧ b.port_value = port)

lemma ports_loop_blocks (t : MarathonTask) (ip : String) :
    ∀ (ps : List Int) (g : Groups), GroupsWF g → GroupsNE g →
      ∃ blocks : List (List Pair),
        List.Forall₂ (IsPortBlock t) ps blocks ∧
        (ports_loop t ip ps g).1 = blocks.flatten := by
  intro ps
  induction ps with
  | nil =>
    intro g _ _
    exact ⟨[], List.Forall₂.nil, by simp [ports_loop]⟩
  | cons port ps ih =>
    intro g hwf hne
    cases hpop : popGroup (ip, port) g with
    | mk o g2 =>
      cases o with
      | some bs =>
        have hsub : g2.Sublist g := by
          have := popGroup_sub (ip, port) g
          rw [hpop] at this
          exact this
        have hmem : ((ip, port), bs) ∈ g := popGroup_some_mem (ip, port) g bs (by rw [hpop])
        obtain ⟨blocks, hf, hflat⟩ := ih g2 (sublist_wf hwf hsub) (sublist_ne hne hsub)
        refine ⟨bs.map (fun b => (some b, some t)) :: blocks, ?_, ?_⟩
        · refine List.Forall₂.cons ?_ hf
          right
          constructor
          · have hbs : bs ≠ [] := hne _ hmem
            simp [hbs]
          · intro p hp
            obtain ⟨b, hb, hbp⟩ := List.mem_map.mp hp
            have hkey := hwf _ hmem b hb
            simp only [Prod.mk.injEq] at hkey
            exact ⟨by rw [← hbp], b, by rw [← hbp], hkey.2⟩
        · simp only [ports_loop, hpop, List.flatten_cons, hflat]
      | none =>
        obtain ⟨blocks, hf, hflat⟩ := ih g hwf hne
        refine ⟨[((none : Option EnvoyBackend), some t)] :: blocks, ?_, ?_⟩
        · exact List.Forall₂.cons (Or.inl rfl) hf
        · simp only [ports_loop, hpop, List.flatten_cons, hflat]
          rfl

lemma tasks_loop_blocks (dns_fwd : String → Option String) :
    ∀ (ts : List MarathonTask) (g : Groups) (pairs : List Pair) (rest : Groups),
      GroupsWF g → GroupsNE g → tasks_loop dns_fwd ts g = some (pairs, rest) →
      ∃ tblocks : List (List Pair),
        List.Forall₂ (fun t blk => ∃ pblocks : List (List Pair),
          List.Forall₂ (IsPortBlock t) t.ports pblocks ∧ blk = pblocks.flatten) ts tblocks ∧
        pairs = tblocks.flatten := by
  intro ts
  induction ts with
  | nil =>
    intro g pairs rest _ _ hb
    simp only [tasks_loop, Option.some.injEq, Prod.mk.injEq] at hb
    exact ⟨[], List.Forall₂.nil, by rw [← hb.1]; rfl⟩
  | cons t ts ih =>
    intro g pairs rest hwf hne hb
    cases hdns : dns_fwd t.host with
    | none => simp only [tasks_loop, hdns] at hb; exact Option.noConfusion hb
    | some ip =>
      simp only [tasks_loop, hdns] at hb
      cases hrec : tasks_loop dns_fwd ts (ports_loop t ip t.ports g).2 with
      | none => rw [hrec] at hb; exact absurd hb (by simp)
      | some pr =>
        rcases pr with ⟨p1, r1⟩
        rw [hrec] at hb
        simp only [Option.some.injEq, Prod.mk.injEq] at hb
        have hsub := ports_loop_sub t ip t.ports g
        obtain ⟨pblocks, hpf, hpflat⟩ := ports_loop_blocks t ip t.ports g hwf hne
        obtain ⟨tblocks, htf, htflat⟩ :=
          ih _ p1 r1 (sublist_wf hwf hsub) (sublist_ne hne hsub) hrec
        refine ⟨(ports_loop t ip t.ports g).1 :: tblocks, ?_, ?_⟩
        · exact List.Forall₂.cons ⟨pblocks, hpf, hpflat⟩ htf
        · rw [← hb.1, List.flatten_cons, htflat]

/-- C3: ordering of `match_backends_and_tasks` output: the pairs with a
present Task side come first and decompose, in task iteration order, into
per-task blocks which themselves decompose, in port order, into per-port
blocks; the pairs with an absent Task side (unmatched backends) come after
them and are exactly the flattening of the remaining groups — an
order-preserving sublist of the original grouping, in first-formation group
order, preserving within-group backend order. -/
theorem match_backends_and_tasks_ordering (dns_fwd : String → Option String)
    (backends : List EnvoyBackend) (tasks : List MarathonTask) (out : List Pair)
    (h : match_backends_and_tasks dns_fwd backends tasks = some out) :
    ∃ (tblocks : List (List Pair)) (rest : Groups),
      List.Forall₂ (fun t blk => ∃ pblocks : List (List Pair),
        List.Forall₂ (IsPortBlock t) t.ports pblocks ∧ blk = pblocks.flatten) tasks tblocks ∧
      rest.Sublist (groupsOf backends) ∧
      out = tblocks.flatten ++ leftover_pairs rest ∧
      (∀ p ∈ tblocks.flatten, p.2.isSome) ∧
      (∀ p ∈ leftover_pairs rest, p.2 = none) := by
  unfold match_backends_and_tasks at h
  cases hrec : tasks_loop dns_fwd tasks (groupsOf backends) with
  | none => rw [hrec] at h; exact absurd h (by simp)
  | some pr =>
    rcases pr with ⟨pairs, rest⟩
    rw [hrec] at h
    simp only [Option.some.injEq] at h
    subst h
    obtain ⟨tblocks, htf, htflat⟩ := tasks_loop_blocks dns_fwd tasks (groupsOf backends)
      pairs rest (groupsOf_wf backends) (groupsOf_ne backends) hrec
    refine ⟨tblocks, rest, htf, tasks_loop_sub dns_fwd tasks _ pairs rest hrec, ?_, ?_, ?_⟩
    · rw [htflat]
    · intro p hp
      rw [← htflat] at hp
      exact tasks_loop_task_side dns_fwd tasks _ pairs rest hrec p hp
    · intro p hp
      exact (leftover_pairs_snd rest p hp).1

def mtTask2 : MarathonTask := { host := "taskhost", ports := [8080, 9999] }

def mtBackend3 : EnvoyBackend :=
  { address := "10.0.0.2", port_value := 8080, hostname := "h3",
    eds_health_status := "HEALTHY", weight := 3 }

/-- Witness for C3: a matched backend, an unmatched port and an unmatched
backend in one run. -/
theorem match_backends_and_tasks_ordering_witness :
    ∃ (tblocks : List (List Pair)) (rest : Groups),
      List.Forall₂ (fun t blk => ∃ pblocks : List (List Pair),
        List.Forall₂ (IsPortBlock t) t.ports pblocks ∧ blk = pblocks.flatten)
        [mtTask2] tblocks ∧
      rest.Sublist (groupsOf [mtBackend1, mtBackend3]) ∧
      [((some mtBackend1 : Option EnvoyBackend), (some mtTask2 : Option MarathonTask)),
        (none, some mtTask2), (some mtBackend3, none)] =
          tblocks.flatten ++ leftover_pairs rest ∧
      (∀ p ∈ tblocks.flatten, p.2.isSome) ∧
      (∀ p ∈ leftover_pairs rest, p.2 = none) :=
  match_backends_and_tasks_ordering mtDns [mtBackend1, mtBackend3] [mtTask2]
    [(some mtBackend1, some mtTask2), (none, some mtTask2), (some mtBackend3, none)]
    (by decide)

/-- The IP a task's host resolves to (defined when resolution succeeded). -/
def resolved_ip (dns_fwd : String → Option String) (t : MarathonTask) : String :=
  (dns_fwd t.host).getD ""

/-- The flattened sequence of (task, resolved key) occurrences the task loop
iterates through, in task-then-port order. -/
def occ_list (dns_fwd : String → Option String) (tasks : List MarathonTask) :
    List (MarathonTask × (String × Int)) :=
  tasks.flatMap (fun t => t.ports.map (fun port => (t, (resolved_ip dns_fwd t, port))))

/-- Lookup (without removal) in the ordered association list. -/
def lookup_group : Groups → (String × Int) → Option (List EnvoyBackend)
  | [], _ => none
  | e :: rest, k => if e.1 = k then some e.2 else lookup_group rest k

/-- What one occurrence contributes per the first-occurrence-wins rule: a
key already claimed by an earlier occurrence, or absent from the initial
grouping, contributes the single `(None, task)` pair; the first occurrence
of a present key is paired with every backend grouped at that key. -/
def occ_block (g0 : Groups) (prior : List (String × Int))
    (o : MarathonTask × (String × Int)) : List Pair :=
  if o.2 ∈ prior then [((none : Option EnvoyBackend), some o.1)]
  else
    match lookup_group g0 o.2 with
    | some bs => bs.map (fun b => (some b, some o.1))
    | none => [((none : Option EnvoyBackend), some o.1)]

/-- The concatenation of all occurrence blocks, threading the list of
already-claimed keys. -/
def occ_pairs (g0 : Groups) (prior : List (String × Int)) :
    List (MarathonTask × (String × Int)) → List Pair
  | [] => []
  | o :: os => occ_block g0 prior o ++ occ_pairs g0 (o.2 :: prior) os

/-- The task/port loop re-expressed on the flattened occurrence sequence. -/
def occ_loop : List (MarathonTask × (String × Int)) → Groups → List Pair × Groups
  | [], g => ([], g)
  | o :: os, g =>
    match popGroup o.2 g with
    | (some bs, g2) =>
      let r := occ_loop os g2
      (bs.map (fun b => (some b, some o.1)) ++ r.1, r.2)
    | (none, _) =>
      let r := occ_loop os g
      (((none : Option EnvoyBackend), some o.1) :: r.1, r.2)

/-- Remove every entry whose key is in `ks` (order-preserving). -/
def dropKeys (g : Groups) (ks : List (String × Int)) : Groups :=
  g.filter (fun e => decide (e.1 ∉ ks))

/-- The association list has pairwise distinct keys. -/
def keysNodup (g : Groups) : Prop := (g.map (fun e => e.1)).Nodup

lemma ports_loop_eq_occ_loop (t : MarathonTask) (ip : String) :
    ∀ (ps : List Int) (g : Groups),
      ports_loop t ip ps g = occ_loop (ps.map (fun port => (t, (ip, port)))) g := by
  intro ps
  induction ps with
  | nil => intro g; rfl
  | cons port ps ih =>
    intro g
    cases hpop : popGroup (ip, port) g with
    | mk o g2 =>
      cases o with
      | some bs =>
        simp only [ports_loop, List.map_cons, occ_loop, hpop]
        rw [ih]
      | none =>
        simp only [ports_loop, List.map_cons, occ_loop, hpop]
        rw [ih]

lemma occ_loop_append :
    ∀ (os1 os2 : List (MarathonTask × (String × Int))) (g : Groups),
      occ_loop (os1 ++ os2) g =
        ((occ_loop os1 g).1 ++ (occ_loop os2 (occ_loop os1 g).2).1,
          (occ_loop os2 (occ_loop os1 g).2).2) := by
  intro os1
  induction os1 with
  | nil => intro os2 g; rfl
  | cons o os1 ih =>
    intro os2 g
    cases hpop : popGroup o.2 g with
    | mk oo g2 =>
      cases oo with
      | some bs =>
        simp only [List.cons_append, occ_loop, hpop, List.append_eq, ih, List.append_assoc]
      | none =>
        simp only [List.cons_append, occ_loop, hpop, List.append_eq, ih]

lemma tasks_loop_eq_occ_loop (dns_fwd : String → Option String) :
    ∀ (ts : List MarathonTask) (g : Groups) (pairs : List Pair) (rest : Groups),
      tasks_loop dns_fwd ts g = some (pairs, rest) →
      occ_loop (occ_list dns_fwd ts) g = (pairs, rest) := by
  intro ts
  induction ts with
  | nil =>
    intro g pairs rest hb
    simp only [tasks_loop, Option.some.injEq, Prod.mk.injEq] at hb
    simp only [occ_list, List.flatMap_nil, occ_loop]
    rw [hb.1, hb.2]
  | cons t ts ih =>
    intro g pairs rest hb
    cases hdns : dns_fwd t.host with
    | none => simp only [tasks_loop, hdns] at hb; exact Option.noConfusion hb
    | some ip =>
      simp only [tasks_loop, hdns] at hb
      cases hrec : tasks_loop dns_fwd ts (ports_loop t ip t.ports g).2 with
      | none => rw [hrec] at hb; exact absurd hb (by simp)
      | some pr =>
        rcases pr with ⟨p1, r1⟩
        rw [hrec] at hb
        simp only [Option.some.injEq, Prod.mk.injEq] at hb
        have hres : resolved_ip dns_fwd t = ip := by
          simp [resolved_ip, hdns]
        simp only [occ_list, List.flatMap_cons, hres]
        rw [occ_loop_append, ← ports_loop_eq_occ_loop t ip t.ports g]
        have hih := ih (ports_loop t ip t.ports g).2 p1 r1 hrec
        simp only [occ_list] at hih
        rw [hih, ← hb.1, ← hb.2]

lemma dropKeys_nil (g : Groups) : dropKeys g [] = g := by
  simp [dropKeys]

lemma dropKeys_congr (g : Groups) (ks1 ks2 : List (String × Int))
    (h : ∀ x, x ∈ ks1 ↔ x ∈ ks2) : dropKeys g ks1 = dropKeys g ks2 :=
  List.filter_congr (fun e _ => by simp [h e.1])

lemma keysNodup_dropKeys (g : Groups) (ks : List (String × Int)) (h : keysNodup g) :
    keysNodup (dropKeys g ks) :=
  h.sublist ((List.filter_sublist g).map (fun e => e.1))

lemma popGroup_not_mem (key : String × Int) :
    ∀ (g : Groups), (∀ e ∈ g, e.1 ≠ key) → popGroup key g = (none, g) := by
  intro g
  induction g with
  | nil => intro _; rfl
  | cons e rest ih =>
    intro h
    rw [popGroup_cons_neg key e rest (h e (by simp))]
    rw [ih (fun e2 he2 => h e2 (by simp [he2]))]

lemma lookup_group_none (key : String × Int) :
    ∀ (g : Groups), lookup_group g key = none → ∀ e ∈ g, e.1 ≠ key := by
  intro g
  induction g with
  | nil => intro _ e he; simp at he
  | cons e0 rest ih =>
    intro h e he
    by_cases he0 : e0.1 = key
    · simp [lookup_group, he0] at h
    · simp only [lookup_group, if_neg he0] at h
      rcases List.mem_cons.mp he with heq | htail
      · rw [heq]; exact he0
      · exact ih h e htail

lemma lookup_dropKeys (g : Groups) (ks : List (String × Int)) (key : String × Int)
    (hk : key ∉ ks) : lookup_group (dropKeys g ks) key = lookup_group g key := by
  induction g with
  | nil => rfl
  | cons e rest ih =>
    by_cases hkeep : e.1 ∈ ks
    · have hne : ¬ e.1 = key := by
        intro hcon
        rw [hcon] at hkeep
        exact hk hkeep
      have hdk : dropKeys (e :: rest) ks = dropKeys rest ks := by
        simp [dropKeys, List.filter_cons, hkeep]
      rw [hdk, ih]
      simp [lookup_group, hne]
    · have hdk : dropKeys (e :: rest) ks = e :: dropKeys rest ks := by
        simp [dropKeys, List.filter_cons, hkeep]
      rw [hdk]
      by_cases he : e.1 = key
      · simp [lookup_group, he]
      · simp only [lookup_group, if_neg he]
        exact ih

lemma popGroup_nodup (key : String × Int) :
    ∀ (g : Groups) (bs : List EnvoyBackend), keysNodup g →
      lookup_group g key = some bs →
      popGroup key g = (some bs, g.filter (fun e => decide (¬ e.1 = key))) := by
  intro g
  induction g with
  | nil => intro bs _ hl; simp [lookup_group] at hl
  | cons e rest ih =>
    intro bs hnd hl
    by_cases he : e.1 = key
    · simp only [lookup_group, if_pos he, Option.some.injEq] at hl
      rw [popGroup_cons_pos key e rest he]
      have hdrop : List.filter (fun e => decide (¬ e.1 = key)) (e :: rest) = rest := by
        rw [List.filter_cons]
        have h1 : (decide (¬ e.1 = key)) = false := by simp [he]
        rw [h1]
        simp only [Bool.false_eq_true, if_false]
        apply List.filter_eq_self.mpr
        intro e2 he2
        have hkeys : e.1 ∉ rest.map (fun e => e.1) := by
          have := hnd
          simp only [keysNodup, List.map_cons, List.nodup_cons] at this
          exact this.1
        simp only [decide_eq_true_eq]
        intro hcon
        rw [← he] at hcon
        exact hkeys (by rw [← hcon]; exact List.mem_map_of_mem (fun e => e.1) he2)
      rw [hdrop, hl]
    · simp only [lookup_group, if_neg he] at hl
      have hnd2 : keysNodup rest := by
        simp only [keysNodup, List.map_cons, List.nodup_cons] at hnd
        exact hnd.2
      rw [popGroup_cons_neg key e rest he, ih bs hnd2 hl]
      rw [List.filter_cons]
      have h1 : (decide (¬ e.1 = key)) = true := by simp [he]
      rw [h1]
      simp only [if_pos]

lemma occ_loop_eq_occ_pairs (g0 : Groups) (hnd : keysNodup g0) :
    ∀ (os : List (MarathonTask × (String × Int))) (prior : List (String × Int)),
      occ_loop os (dropKeys g0 prior) =
        (occ_pairs g0 prior os, dropKeys g0 (prior ++ os.map (fun o => o.2))) := by
  intro os
  induction os with
  | nil => intro prior; simp [occ_loop, occ_pairs]
  | cons o os ih =>
    intro prior
    by_cases hmem : o.2 ∈ prior
    · have hno : ∀ e ∈ dropKeys g0 prior, e.1 ≠ o.2 := by
        intro e he hcon
        have hpass := List.of_mem_filter he
        rw [hcon] at hpass
        simp only [decide_eq_true_eq] at hpass
        exact hpass hmem
      have hpop := popGroup_not_mem o.2 (dropKeys g0 prior) hno
      have hdk : dropKeys g0 (o.2 :: prior) = dropKeys g0 prior :=
        dropKeys_congr g0 _ _ (fun x =>
          ⟨fun hx => by
            rcases List.mem_cons.mp hx with h1 | h1
            · rw [h1]; exact hmem
            · exact h1,
           fun hx => List.mem_cons_of_mem _ hx⟩)
      have hih := ih (o.2 :: prior)
      rw [hdk] at hih
      simp only [occ_loop, hpop, hih, occ_pairs, occ_block, if_pos hmem, Prod.mk.injEq]
      refine ⟨rfl, ?_⟩
      exact dropKeys_congr g0 _ _ (fun x => by
          simp only [List.mem_append, List.mem_cons, List.map_cons]
          tauto)
    · cases hlk : lookup_group g0 o.2 with
      | some bs =>
        have hlk2 : lookup_group (dropKeys g0 prior) o.2 = some bs := by
          rw [lookup_dropKeys g0 prior o.2 hmem]
          exact hlk
        have hpop := popGroup_nodup o.2 (dropKeys g0 prior) bs
          (keysNodup_dropKeys g0 prior hnd) hlk2
        have hflt : (dropKeys g0 prior).filter (fun e => decide (¬ e.1 = o.2)) =
            dropKeys g0 (o.2 :: prior) := by
          rw [dropKeys, dropKeys, List.filter_filter]
          exact List.filter_congr (fun e _ => by
            by_cases h1 : e.1 = o.2 <;> by_cases h2 : e.1 ∈ prior <;>
              simp [h1, h2, List.mem_cons])
        have hih := ih (o.2 :: prior)
        rw [hflt] at hpop
        simp only [occ_loop, hpop, hih, occ_pairs, occ_block, if_neg hmem, hlk,
          Prod.mk.injEq]
        refine ⟨trivial, ?_⟩
        exact dropKeys_congr g0 _ _ (fun x => by
          simp only [List.mem_append, List.mem_cons, List.map_cons]
          tauto)
      | none =>
        have hall := lookup_group_none o.2 g0 hlk
        have hno : ∀ e ∈ dropKeys g0 prior, e.1 ≠ o.2 := by
          intro e he
          exact hall e (List.mem_of_mem_filter he)
        have hpop := popGroup_not_mem o.2 (dropKeys g0 prior) hno
        have hdk : dropKeys g0 (o.2 :: prior) = dropKeys g0 prior :=
          List.filter_congr (fun e he => by
            have := hall e he
            simp [List.mem_cons, this])
        have hih := ih (o.2 :: prior)
        rw [hdk] at hih
        simp only [occ_loop, hpop, hih, occ_pairs, occ_block, if_neg hmem, hlk,
          Prod.mk.injEq]
        refine ⟨rfl, ?_⟩
        exact dropKeys_congr g0 _ _ (fun x => by
          simp only [List.mem_append, List.mem_cons, List.map_cons]
          tauto)

lemma addToGroups_keys (key : String × Int) (b : EnvoyBackend) :
    ∀ (g : Groups), (addToGroups g key b).map (fun e => e.1) =
      if key ∈ g.map (fun e => e.1) then g.map (fun e => e.1)
      else g.map (fun e => e.1) ++ [key] := by
  intro g
  induction g with
  | nil => simp [addToGroups]
  | cons e rest ih =>
    by_cases he : e.1 = key
    · simp only [addToGroups, if_pos he, List.map_cons]
      rw [if_pos (by rw [he]; exact List.mem_cons_self _ _)]
    · simp only [addToGroups, if_neg he, List.map_cons, ih]
      by_cases hmem : key ∈ rest.map (fun e => e.1)
      · rw [if_pos hmem, if_pos (by simp [hmem])]
      · rw [if_neg hmem, if_neg (by
          simp only [List.mem_cons]
          rintro (h1 | h1)
          · exact he h1.symm
          · exact hmem h1)]
        simp

lemma groupsOf_keys_nodup (backends : List EnvoyBackend) : keysNodup (groupsOf backends) := by
  suffices h : ∀ (bs : List EnvoyBackend) (g : Groups), keysNodup g →
      keysNodup (bs.foldl (fun g b => addToGroups g (b.address, b.port_value) b) g) by
    exact h backends [] (by simp [keysNodup])
  intro bs
  induction bs with
  | nil => intro g hg; exact hg
  | cons b rest ih =>
    intro g hg
    apply ih
    unfold keysNodup
    rw [addToGroups_keys (b.address, b.port_value) b g]
    by_cases hmem : (b.address, b.port_value) ∈ g.map (fun e => e.1)
    · rw [if_pos hmem]; exact hg
    · rw [if_neg hmem]
      have : ((g.map (fun e => e.1)) ++ [(b.address, b.port_value)]).Nodup := by
        rw [List.nodup_append]
        exact ⟨hg, List.nodup_singleton _, by
          intro x hx
          simp only [List.mem_singleton]
          intro hcon
          rw [hcon] at hx
          exact hmem hx⟩
      exact this

/-- C9: each (ip, port) backend group is consumed by the first occurrence
(in task-then-port iteration order) whose resolved key equals it; every
later occurrence with the same key — a second task resolving to the same
(ip, port), or the same port listed twice — yields the single pair
`(None, task)`. The whole output equals the occurrence blocks (first
occurrence of a present key gets the group, every other occurrence gets
`(None, task)`) followed by the leftover sweep over the groups whose key no
occurrence claimed. -/
theorem match_backends_and_tasks_first_occurrence (dns_fwd : String → Option String)
    (backends : List EnvoyBackend) (tasks : List MarathonTask) (out : List Pair)
    (h : match_backends_and_tasks dns_fwd backends tasks = some out) :
    out = occ_pairs (groupsOf backends) [] (occ_list dns_fwd tasks) ++
      leftover_pairs (dropKeys (groupsOf backends)
        ((occ_list dns_fwd tasks).map (fun o => o.2))) := by
  unfold match_backends_and_tasks at h
  cases hrec : tasks_loop dns_fwd tasks (groupsOf backends) with
  | none => rw [hrec] at h; exact absurd h (by simp)
  | some pr =>
    rcases pr with ⟨pairs, rest⟩
    rw [hrec] at h
    simp only [Option.some.injEq] at h
    subst h
    have hocc := tasks_loop_eq_occ_loop dns_fwd tasks (groupsOf backends) pairs rest hrec
    have hmain := occ_loop_eq_occ_pairs (groupsOf backends) (groupsOf_keys_nodup backends)
      (occ_list dns_fwd tasks) []
    rw [dropKeys_nil, hocc] at hmain
    simp only [List.nil_append, Prod.mk.injEq] at hmain
    rw [hmain.1, hmain.2]

def mtTask3 : MarathonTask := { host := "taskhost", ports := [8080, 8080] }

/-- Witness for C9: the same port listed twice — the first occurrence takes
the group, the second yields `(None, task)`. -/
theorem match_backends_and_tasks_first_occurrence_witness :
    ([((some mtBackend1 : Option EnvoyBackend), (some mtTask3 : Option MarathonTask)),
        (none, some mtTask3)] : List Pair) =
      occ_pairs (groupsOf [mtBackend1]) [] (occ_list mtDns [mtTask3]) ++
        leftover_pairs (dropKeys (groupsOf [mtBackend1])
          ((occ_list mtDns [mtTask3]).map (fun o => o.2))) :=
  match_backends_and_tasks_first_occurrence mtDns [mtBackend1] [mtTask3]
    [(some mtBackend1, some mtTask3), (none, some mtTask3)] (by decide)
